import Mathlib

/-!
Verification of the token-stream decoder, nested-JSON expansion engine and
turn renderer of the bee-sample-viewer repository.

The embedding models Python values and functions as follows.

* Python strings are `List Char` (Python `str` is a sequence of unicode code
  points; `text[a:b]` becomes take/drop, `str.strip()` becomes `pyStrip`).
* JSON-like Python values (the data `json.loads` produces and the turn
  records the renderer consumes) are the mutual inductive `JVal`/`JArr`/`JObj`
  below: `None`, `bool`, `int`, `str`, `list`, `dict` (insertion-ordered,
  string keys).  Floats are outside the model: the embedded `loads` rejects
  number tokens with a fractional part or exponent, where Python would build
  a `float`.  None of the verified claims concerns float parsing.
* `json.loads` is embedded as the executable recursive-descent `loads`
  below, following the grammar and error behaviour of Python's `json`
  module (strict mode): the four JSON whitespace characters, string escape
  handling including `\uXXXX` and surrogate pairs, rejection of control
  characters inside strings, of trailing data and of trailing commas.
  A failed parse is `none` (Python: `json.JSONDecodeError`).
  Two documented deviations, both irrelevant to the claims: floats are
  rejected as above, and a lone `\uXXXX` surrogate escape produces
  `Char.ofNat` of the code (Python keeps a surrogate code point, which a
  Lean `Char` cannot hold).
* Functions that can raise in Python are embedded in `Except PyErr`;
  functions whose Python bodies only use total operations (or catch all
  their exceptions locally) are plain functions.
-/

mutual
inductive JVal where
  | null : JVal
  | bool (b : Bool) : JVal
  | num (n : Int) : JVal
  | str (s : List Char) : JVal
  | arr (xs : JArr) : JVal
  | obj (kvs : JObj) : JVal
deriving DecidableEq, Repr

inductive JArr where
  | nil : JArr
  | cons (v : JVal) (tl : JArr) : JArr
deriving DecidableEq, Repr

inductive JObj where
  | nil : JObj
  | cons (k : List Char) (v : JVal) (tl : JObj) : JObj
deriving DecidableEq, Repr
end

instance : Inhabited JVal := ⟨.null⟩
instance : Inhabited JArr := ⟨.nil⟩
instance : Inhabited JObj := ⟨.nil⟩

/-- Build a `JArr` from a Lean list (notation convenience for examples). -/
def JArr.ofList : List JVal → JArr
  | [] => .nil
  | v :: t => .cons v (JArr.ofList t)

/-- Build a `JObj` from a Lean association list. -/
def JObj.ofList : List (List Char × JVal) → JObj
  | [] => .nil
  | (k, v) :: t => .cons k v (JObj.ofList t)

mutual
/-- Size measure on JSON values: 1 per scalar, `length + 1` per string,
and per container one plus the sizes of the members (each member weighted
with an extra 1, keys with their length).  This measure is bounded by the
length of any JSON text that parses to the value, which grounds the
termination of the widgets-module expansion. -/
def szJ : JVal → Nat
  | .null => 1
  | .bool _ => 1
  | .num _ => 1
  | .str s => s.length + 1
  | .arr xs => 1 + szA xs
  | .obj kvs => 1 + szO kvs

def szA : JArr → Nat
  | .nil => 0
  | .cons v tl => 1 + szJ v + szA tl

def szO : JObj → Nat
  | .nil => 0
  | .cons k v tl => 1 + k.length + szJ v + szO tl
end

/-! ### Character classes and Python string helpers -/

/-- The four whitespace characters of the JSON grammar (Python `json`'s
`_w` skipper: space, tab, newline, carriage return). -/
def jsonWs (c : Char) : Bool :=
  c = ' ' || c = '\t' || c = '\n' || c = '\r'

/-- Whitespace for Python `str.strip()` / `str.isspace()`.  The ASCII
whitespace characters; Python additionally strips some rare unicode
space characters, which no claim exercises. -/
def pyIsSpace (c : Char) : Bool :=
  c = ' ' || c = '\t' || c = '\n' || c = '\r' || c = '\x0b' || c = '\x0c'

/-- Python `text.strip()`. -/
def pyStrip (s : List Char) : List Char :=
  ((s.dropWhile pyIsSpace).reverse.dropWhile pyIsSpace).reverse

/-- Skip JSON whitespace (Python `json.decoder.WHITESPACE.match`). -/
def skipWs (s : List Char) : List Char := s.dropWhile jsonWs

/-! ### The embedded `json.loads` -/

def hexVal (c : Char) : Option Nat :=
  if '0' ≤ c ∧ c ≤ '9' then some (c.toNat - 48)
  else if 'a' ≤ c ∧ c ≤ 'f' then some (c.toNat - 87)
  else if 'A' ≤ c ∧ c ≤ 'F' then some (c.toNat - 55)
  else none

def hex4 (a b c d : Char) : Option Nat :=
  match hexVal a, hexVal b, hexVal c, hexVal d with
  | some x, some y, some z, some w => some (((x * 16 + y) * 16 + z) * 16 + w)
  | _, _, _, _ => none

/-- Single-character string escapes of the JSON grammar. -/
def escChar (c : Char) : Option Char :=
  if c = '"' then some '"'
  else if c = '\\' then some '\\'
  else if c = '/' then some '/'
  else if c = 'b' then some (Char.ofNat 8)
  else if c = 'f' then some (Char.ofNat 12)
  else if c = 'n' then some '\n'
  else if c = 'r' then some '\r'
  else if c = 't' then some '\t'
  else none

/-- Parse the rest of a JSON string literal (the opening quote already
consumed), per Python `json.decoder.py_scanstring` in strict mode:
control characters are rejected, `\uXXXX` escapes are decoded with
surrogate-pair combination.  The fuel argument only bounds the recursion
(each step consumes at least one character, so `length + 1` suffices). -/
def pStringAux : Nat → List Char → Option (List Char × List Char)
  | 0, _ => none
  | fuel + 1, cs =>
    match cs with
    | [] => none
    | c :: t =>
      if c = '"' then some ([], t)
      else if c = '\\' then
        match t with
        | [] => none
        | e :: t2 =>
          if e = 'u' then
            match t2 with
            | a :: b :: c2 :: d :: t3 =>
              match hex4 a b c2 d with
              | none => none
              | some n =>
                if 0xD800 ≤ n ∧ n ≤ 0xDBFF then
                  match t3 with
                  | '\\' :: 'u' :: e2 :: f2 :: g2 :: h2 :: t4 =>
                    match hex4 e2 f2 g2 h2 with
                    | none => none
                    | some m =>
                      if 0xDC00 ≤ m ∧ m ≤ 0xDFFF then
                        (pStringAux fuel t4).map
                          (fun p =>
                            (Char.ofNat (0x10000 + (n - 0xD800) * 0x400 + (m - 0xDC00)) :: p.1, p.2))
                      else
                        (pStringAux fuel ('\\' :: 'u' :: e2 :: f2 :: g2 :: h2 :: t4)).map
                          (fun p => (Char.ofNat n :: p.1, p.2))
                  | _ => (pStringAux fuel t3).map (fun p => (Char.ofNat n :: p.1, p.2))
                else (pStringAux fuel t3).map (fun p => (Char.ofNat n :: p.1, p.2))
            | _ => none
          else
            match escChar e with
            | some c2 => (pStringAux fuel t2).map (fun p => (c2 :: p.1, p.2))
            | none => none
      else if c.toNat < 0x20 then none
      else (pStringAux fuel t).map (fun p => (c :: p.1, p.2))

/-- Parse a JSON string literal body with sufficient fuel. -/
def pString (t : List Char) : Option (List Char × List Char) :=
  pStringAux (t.length + 1) t

def digitVal (c : Char) : Option Nat :=
  if '0' ≤ c ∧ c ≤ '9' then some (c.toNat - 48) else none

def takeDigits : List Char → (List Nat × List Char)
  | [] => ([], [])
  | c :: t =>
    match digitVal c with
    | some d => let p := takeDigits t; (d :: p.1, p.2)
    | none => ([], c :: t)

/-- JSON integer part: `0 | [1-9][0-9]*` (per Python's NUMBER_RE). -/
def pIntPart : List Char → Option (Nat × List Char)
  | [] => none
  | c :: t =>
    match digitVal c with
    | none => none
    | some d =>
      if d = 0 then some (0, t)
      else
        let p := takeDigits t
        some (p.1.foldl (fun a x => a * 10 + x) d, p.2)

/-- `true` when the remaining characters would extend the integer match to
a float per Python's number regex (`(\.\d+)?([eE][+-]?\d+)?`). -/
def floatFollows : List Char → Bool
  | '.' :: c :: _ => (digitVal c).isSome
  | 'e' :: '+' :: c :: _ => (digitVal c).isSome
  | 'e' :: '-' :: c :: _ => (digitVal c).isSome
  | 'e' :: c :: _ => (digitVal c).isSome
  | 'E' :: '+' :: c :: _ => (digitVal c).isSome
  | 'E' :: '-' :: c :: _ => (digitVal c).isSome
  | 'E' :: c :: _ => (digitVal c).isSome
  | _ => false

/-- Parse a JSON number.  Floats are not representable in the model, so a
number token that Python would parse as a `float` is rejected (`none`). -/
def pNum (cs : List Char) : Option (JVal × List Char) :=
  match cs with
  | '-' :: t =>
    match pIntPart t with
    | none => none
    | some (n, r) => if floatFollows r then none else some (.num (-(n : Int)), r)
  | _ =>
    match pIntPart cs with
    | none => none
    | some (n, r) => if floatFollows r then none else some (.num (n : Int), r)

/-- Parse the items of a non-empty JSON array, starting at the first value
(whitespace already skipped), given a value parser `pv`. -/
def pItems (pv : List Char → Option (JVal × List Char)) :
    Nat → List Char → Option (JArr × List Char)
  | 0, _ => none
  | n + 1, cs =>
    match pv cs with
    | none => none
    | some (v, r) =>
      match skipWs r with
      | ']' :: t => some (.cons v .nil, t)
      | ',' :: t => (pItems pv n (skipWs t)).map (fun p => (.cons v p.1, p.2))
      | _ => none

/-- Parse the `"key": value` pairs of a non-empty JSON object, starting at
the first key (whitespace already skipped). -/
def pPairs (pv : List Char → Option (JVal × List Char)) :
    Nat → List Char → Option (List (List Char × JVal) × List Char)
  | 0, _ => none
  | n + 1, cs =>
    match cs with
    | '"' :: t =>
      match pString t with
      | none => none
      | some (k, r) =>
        match skipWs r with
        | ':' :: t2 =>
          match pv (skipWs t2) with
          | none => none
          | some (v, r2) =>
            match skipWs r2 with
            | '}' :: t3 => some ([(k, v)], t3)
            | ',' :: t3 => (pPairs pv n (skipWs t3)).map (fun p => ((k, v) :: p.1, p.2))
            | _ => none
        | _ => none
    | _ => none

/-- `dict` assignment: an existing key keeps its position and gets the new
value, a new key is appended (CPython `dict(pairs)` semantics, which the
decoder applies to the parsed pair list). -/
def objUpd : JObj → List Char → JVal → JObj
  | .nil, k, v => .cons k v .nil
  | .cons k0 v0 tl, k, v =>
    if k0 = k then .cons k0 v tl else .cons k0 v0 (objUpd tl k v)

def dictify (ps : List (List Char × JVal)) : JObj :=
  ps.foldl (fun o p => objUpd o p.1 p.2) .nil

/-- One JSON value (Python `_scan_once`). -/
def pVal : Nat → List Char → Option (JVal × List Char)
  | 0, _ => none
  | n + 1, cs =>
    match cs with
    | '"' :: t => (pString t).map (fun p => (.str p.1, p.2))
    | '\x7b' :: t =>
      match skipWs t with
      | '\x7d' :: t2 => some (.obj .nil, t2)
      | t1 => (pPairs (pVal n) n t1).map (fun p => (.obj (dictify p.1), p.2))
    | '[' :: t =>
      match skipWs t with
      | ']' :: t2 => some (.arr .nil, t2)
      | t1 => (pItems (pVal n) n t1).map (fun p => (.arr p.1, p.2))
    | 'n' :: 'u' :: 'l' :: 'l' :: t => some (.null, t)
    | 't' :: 'r' :: 'u' :: 'e' :: t => some (.bool true, t)
    | 'f' :: 'a' :: 'l' :: 's' :: 'e' :: t => some (.bool false, t)
    | _ => pNum cs

/-- Python `json.loads`: skip leading whitespace, parse one value, allow
only whitespace afterwards.  `none` models `json.JSONDecodeError` (the
only exception `json.loads` raises on a `str` argument, and the one the
source catches).  The fuel `2 * length + 4` over-approximates the number
of recursive parser steps, which consume at least one character each. -/
def loads (s : List Char) : Option JVal :=
  let cs := skipWs s
  match pVal (2 * cs.length + 4) cs with
  | some (v, r) => if skipWs r = [] then some v else none
  | none => none

example : loads ("[1]".data) = some (.arr (.ofList [.num 1])) := rfl
example : loads ("  \x7b\"a\": 1, \"b\": [true, null]\x7d ".data) =
    some (.obj (.ofList [(['a'], .num 1), (['b'], .arr (.ofList [.bool true, .null]))])) := rfl
example : loads ("[1,]".data) = none := rfl
example : loads ("\x7b\"a\":2,\"a\":3\x7d".data) = some (.obj (.ofList [(['a'], .num 3)])) := rfl
example : loads ("\"a\\u00e9\"".data) = some (.str ['a', 'é']) := rfl
example : loads ("not json".data) = none := rfl
example : loads ("-12".data) = some (.num (-12)) := rfl
example : loads ("1.5".data) = none := rfl
example : loads ("01".data) = none := rfl
example : loads ("[\"[1]\"]".data) = some (.arr (.ofList [.str ['[', '1', ']']])) := rfl

/-! ### The token scanner and section decoder (`_parse_token_sections`) -/

/-- Python slice `text[a:b]` (for the non-negative indices used here). -/
def sliceL (text : List Char) (a b : Nat) : List Char := (text.take b).drop a

/-- Character class `[A-Z_]` of the marker pattern. -/
def isUpperUnd (c : Char) : Bool := ('A' ≤ c && c ≤ 'Z') || c = '_'

/-- Try to match the marker pattern `<\|[A-Z_]+\|>` at the head of `cs`;
on success return the marker's NAME and the remaining characters.  Since
`|` is not in `[A-Z_]`, the regex engine's greedy match of the class
followed by the literal `|>` is exactly: maximal `[A-Z_]` run, then `|>`. -/
def matchTok : List Char → Option (List Char × List Char)
  | '<' :: '|' :: t =>
    let p := t.span (fun c => isUpperUnd c)
    if p.1 = [] then none
    else
      match p.2 with
      | '|' :: '>' :: r => some (p.1, r)
      | _ => none
  | _ => none

/-- Scan for all (non-overlapping, leftmost) matches of the marker
pattern, returning `(startOffset, NAME)` pairs in order
(`re.finditer(r'<\|[A-Z_]+\|>', text)`).  Fuel bounds the scan; every
step consumes at least one character, so `length` suffices. -/
def fmAux : Nat → List Char → Nat → List (Nat × List Char)
  | 0, _, _ => []
  | n + 1, cs, i =>
    match matchTok cs with
    | some (name, rest) => (i, name) :: fmAux n rest (i + name.length + 4)
    | none =>
      match cs with
      | [] => []
      | _ :: t => fmAux n t (i + 1)

def findMarkers (text : List Char) : List (Nat × List Char) :=
  fmAux text.length text 0

/-- The recognized-token table (`token_map`).  The source keys it by the
full token string `<|NAME|>`; since every scanner match is of that shape,
keying by NAME is equivalent. -/
def tokenKindOf (name : List Char) : Option (List Char) :=
  if name = "SYSTEM_TOKEN".data then some ("system".data)
  else if name = "USER_TOKEN".data then some ("user".data)
  else if name = "CHATBOT_TOKEN".data then some ("chatbot".data)
  else if name = "START_THINKING".data then some ("thinking".data)
  else if name = "END_THINKING".data then some ("end_thinking".data)
  else if name = "START_ACTION".data then some ("action".data)
  else if name = "END_ACTION".data then some ("end_action".data)
  else if name = "START_RESPONSE".data then some ("response".data)
  else if name = "END_RESPONSE".data then some ("end_response".data)
  else if name = "START_TOOL_RESULT".data then some ("tool_result".data)
  else if name = "END_TOOL_RESULT".data then some ("end_tool_result".data)
  else if name = "START_OF_TURN_TOKEN".data then some ("turn_start".data)
  else if name = "END_OF_TURN_TOKEN".data then some ("turn_end".data)
  else none

/-- One decoded section: `(section_type, token, content)` where `token`
is the marker string whose processing emitted the section (`''` for the
final flush). -/
structure TokSection where
  kind : List Char
  token : List Char
  content : List Char
deriving DecidableEq, Repr

/-- The loop state of `_parse_token_sections`. -/
structure PState where
  curType : List Char
  curStart : Nat
  stack : List (List Char)
  sections : List TokSection
deriving DecidableEq, Repr

/-- `section_type.startswith('end_')`. -/
def isEndKind : List Char → Bool
  | 'e' :: 'n' :: 'd' :: '_' :: _ => true
  | _ => false

/-- The body of the `for match in matches` loop of
`_parse_token_sections`, for one scanner match `(start, NAME)`. -/
def stepTok (text : List Char) (st : PState) (m : Nat × List Char) : PState :=
  let tokStr := '<' :: '|' :: (m.2 ++ ['|', '>'])
  let tokEnd := m.1 + m.2.length + 4
  let content := sliceL text st.curStart m.1
  let sections :=
    if m.1 > st.curStart ∧ pyStrip content ≠ [] then
      st.sections ++ [⟨st.curType, tokStr, content⟩]
    else st.sections
  match tokenKindOf m.2 with
  | some ty =>
    if isEndKind ty then
      let stack := st.stack.dropLast
      ⟨stack.getLast?.getD ("plain".data), tokEnd, stack, sections⟩
    else if ty = "turn_start".data ∨ ty = "turn_end".data then
      ⟨st.curType, tokEnd, st.stack, sections⟩
    else
      ⟨ty, tokEnd, st.stack ++ [ty], sections⟩
  | none => ⟨st.curType, st.curStart, st.stack, sections⟩

/-- `_parse_token_sections` (the `decodeMarkup` entry point of the spec):
scan for markers, fold the loop body over the matches, flush the tail,
and fall back to a single `plain` section when nothing was produced. -/
def decodeMarkup (text : List Char) : List TokSection :=
  let ms := findMarkers text
  if ms = [] then [⟨"plain".data, [], text⟩]
  else
    let st := ms.foldl (stepTok text) ⟨"plain".data, 0, [], []⟩
    let sections :=
      if st.curStart < text.length ∧ pyStrip (sliceL text st.curStart text.length) ≠ [] then
        st.sections ++ [⟨st.curType, [], sliceL text st.curStart text.length⟩]
      else st.sections
    if sections = [] then [⟨"plain".data, [], text⟩] else sections

/-! Statement helpers for the partition claims (these are *specification*
vocabulary, not source code): the inter-marker segments of the input, in
order, and the concatenation of the decoded contents. -/

def segsFrom (text : List Char) : Nat → List (Nat × List Char) → List (List Char)
  | c, [] => [sliceL text c text.length]
  | c, (p, name) :: ts => sliceL text c p :: segsFrom text (p + name.length + 4) ts

/-- The pieces of `text` between (and around) the scanner's marker
matches: concatenating them yields `text` with all marker text removed. -/
def segments (text : List Char) : List (List Char) :=
  segsFrom text 0 (findMarkers text)

def removeMarkers (text : List Char) : List Char := (segments text).flatten

def joinContents (ss : List TokSection) : List Char := (ss.map (fun s => s.content)).flatten

example : findMarkers ("a<|FOO|>b".data) = [(1, "FOO".data)] := rfl
example : findMarkers ("<|ab|><||>x".data) = [] := rfl
example : decodeMarkup ("plain text".data) = [⟨"plain".data, [], "plain text".data⟩] := rfl
example : decodeMarkup ("<|SYSTEM_TOKEN|>Hello".data) =
    [⟨"system".data, [], "Hello".data⟩] := rfl
example : decodeMarkup ("<|START_ACTION|>\x7b\"a\":1\x7d<|END_ACTION|>".data) =
    [⟨"action".data, "<|END_ACTION|>".data, "\x7b\"a\":1\x7d".data⟩] := rfl
example : removeMarkers ("x<|SYSTEM_TOKEN|> y".data) = "x y".data := rfl

/-! ### Nested JSON expansion, conversation-viewer version
(`ConversationViewer._expand_nested_json(obj, max_depth=5)`) -/

/-- `ConversationViewer._looks_like_json` (the widgets `JSONViewer` has an
identical check): falsy/empty text is not JSON-shaped; otherwise strip and
require matching outer braces or brackets. -/
def pyLooksLikeJson (s : List Char) : Bool :=
  let t := pyStrip s
  (t.head? = some '{' && t.getLast? = some '}') ||
  (t.head? = some '[' && t.getLast? = some ']')

def mapJA (f : JVal → JVal) : JArr → JArr
  | .nil => .nil
  | .cons v tl => .cons (f v) (mapJA f tl)

def mapJO (f : JVal → JVal) : JObj → JObj
  | .nil => .nil
  | .cons k v tl => .cons k (f v) (mapJO f tl)

/-- The recursion of `ConversationViewer._expand_nested_json` on a `Nat`
depth.  The Python parameter is an `int` tested with `max_depth <= 0` and
passed on as `max_depth - 1`; on the non-positive side the function is
constant, so the recursion factors through `Int.toNat` (see `expandCv`).
A string that looks like JSON and parses is *replaced* by the expansion of
its parse; dict values and list elements are expanded at `max_depth - 1`. -/
def expandCvNat : Nat → JVal → JVal
  | 0, v => v
  | n + 1, v =>
    match v with
    | .str s =>
      if pyLooksLikeJson s then
        match loads s with
        | some parsed => expandCvNat n parsed
        | none => .str s
      else .str s
    | .obj kvs => .obj (mapJO (expandCvNat n) kvs)
    | .arr xs => .arr (mapJA (expandCvNat n) xs)
    | other => other

/-- `ConversationViewer._expand_nested_json(obj, max_depth)` with the
Python `int` depth. -/
def expandCv (v : JVal) (d : Int) : JVal := expandCvNat d.toNat v

example : expandCv (.str ("\x7b\"inner\":5\x7d".data)) 5 =
    .obj (.ofList [("inner".data, .num 5)]) := rfl
example :
    expandCv (.obj (.ofList [("output".data, .str ("\x7b\"inner\":5\x7d".data))])) 5 =
    .obj (.ofList [("output".data, .obj (.ofList [("inner".data, .num 5)]))]) := rfl
example : expandCv (.str ("nope".data)) 5 = .str ("nope".data) := rfl

/-! ### Size bounds for the parser

A successful parse consumes at least `szJ` of the produced value many
characters.  These bounds justify the termination of the widgets-module
expansion, which recurses into parsed values. -/

lemma length_dropWhile_le {α : Type} (p : α → Bool) (l : List α) :
    (l.dropWhile p).length ≤ l.length := by
  induction l with
  | nil => simp
  | cons a t ih =>
    simp only [List.dropWhile_cons, List.length_cons]
    split
    · omega
    · simp

lemma length_skipWs_le (s : List Char) : (skipWs s).length ≤ s.length :=
  length_dropWhile_le _ _

lemma length_pyStrip_le (s : List Char) : (pyStrip s).length ≤ s.length := by
  have h1 := length_dropWhile_le pyIsSpace s
  have h2 := length_dropWhile_le pyIsSpace (s.dropWhile pyIsSpace).reverse
  simp only [pyStrip, List.length_reverse] at *
  omega

lemma pStringAux_size :
    ∀ fuel cs p, pStringAux fuel cs = some p → p.1.length + 1 + p.2.length ≤ cs.length := by
  intro fuel
  induction fuel with
  | zero => intro cs p h; simp [pStringAux] at h
  | succ n ih =>
    intro cs p h
    cases cs with
    | nil => simp [pStringAux] at h
    | cons c t =>
      simp only [pStringAux] at h
      repeat' split at h
      all_goals try simp_all
      all_goals first
        | omega
        | (subst h; simp; omega)
        | (obtain ⟨a, b, hq, hfq⟩ := h
           have hsz := ih _ _ _ hq
           subst hfq
           simp at hsz ⊢
           omega)

lemma pString_size (t : List Char) (p : List Char × List Char) (h : pString t = some p) :
    p.1.length + 1 + p.2.length ≤ t.length :=
  pStringAux_size _ _ _ h

lemma takeDigits_size : ∀ cs, (takeDigits cs).2.length ≤ cs.length := by
  intro cs
  induction cs with
  | nil => simp [takeDigits]
  | cons c t ih =>
    simp only [takeDigits]
    split <;> simp <;> omega

lemma pIntPart_size : ∀ cs q, pIntPart cs = some q → q.2.length + 1 ≤ cs.length := by
  intro cs q h
  cases cs with
  | nil => simp [pIntPart] at h
  | cons c t =>
    simp only [pIntPart] at h
    split at h
    · simp at h
    · split at h
      · cases h; simp
      · cases h
        have ht := takeDigits_size t
        simp only [List.length_cons]
        omega

lemma pNum_size : ∀ cs p, pNum cs = some p → szJ p.1 + p.2.length ≤ cs.length := by
  intro cs p h
  simp only [pNum] at h
  repeat' split at h
  all_goals try simp_all
  all_goals (
    cases h
    rename_i n r hip hff
    have hi := pIntPart_size _ _ hip
    simp at hi
    simp only [szJ, List.length_cons]
    omega)

def szPairs (ps : List (List Char × JVal)) : Nat :=
  (ps.map (fun q => 1 + q.1.length + szJ q.2)).sum

lemma szO_objUpd_le : ∀ (o : JObj) (k : List Char) (v : JVal),
    szO (objUpd o k v) ≤ szO o + (1 + k.length + szJ v)
  | .nil, k, v => by simp [objUpd, szO]
  | .cons k0 v0 tl, k, v => by
    have ih := szO_objUpd_le tl k v
    simp only [objUpd]
    split
    · simp [szO]; omega
    · simp [szO]; omega

lemma szO_foldUpd : ∀ (ps : List (List Char × JVal)) (o : JObj),
    szO (ps.foldl (fun o p => objUpd o p.1 p.2) o) ≤ szO o + szPairs ps := by
  intro ps
  induction ps with
  | nil => intro o; simp [szPairs]
  | cons q tl ih =>
    intro o
    have h1 := ih (objUpd o q.1 q.2)
    have h2 := szO_objUpd_le o q.1 q.2
    simp only [List.foldl_cons, szPairs, List.map_cons, List.sum_cons] at *
    omega

lemma szO_dictify_le (ps : List (List Char × JVal)) : szO (dictify ps) ≤ szPairs ps := by
  have h := szO_foldUpd ps .nil
  simpa [dictify, szO] using h

lemma pItems_size (pv : List Char → Option (JVal × List Char))
    (hpv : ∀ cs p, pv cs = some p → szJ p.1 + p.2.length ≤ cs.length) :
    ∀ n cs p, pItems pv n cs = some p → szA p.1 + p.2.length ≤ cs.length := by
  intro n
  induction n with
  | zero => intro cs p h; simp [pItems] at h
  | succ m ih =>
    intro cs p h
    simp only [pItems] at h
    repeat' split at h
    all_goals try simp_all
    all_goals rename_i o1 v r sw t hpveq hsw
    · have h1 := hpv _ _ _ hpveq
      have h2 := length_skipWs_le r
      rw [hsw] at h2
      cases h
      simp only [szA, szJ, List.length_cons] at *
      omega
    · obtain ⟨a, b, hq, hfq⟩ := h
      have h1 := hpv _ _ _ hpveq
      have h2 := length_skipWs_le r
      rw [hsw] at h2
      have h3 := length_skipWs_le t
      have h4 := ih _ _ _ hq
      cases hfq
      simp only [szA, List.length_cons] at *
      omega

lemma pPairs_size (pv : List Char → Option (JVal × List Char))
    (hpv : ∀ cs p, pv cs = some p → szJ p.1 + p.2.length ≤ cs.length) :
    ∀ n cs p, pPairs pv n cs = some p → szPairs p.1 + p.2.length ≤ cs.length := by
  intro n
  induction n with
  | zero => intro cs p h; simp [pPairs] at h
  | succ m ih =>
    intro cs p h
    simp only [pPairs] at h
    repeat' split at h
    all_goals try simp_all
    all_goals rename_i csx t o1 k r1 o2 t2 o3 v r2 o4 t3 hk hsw1 hv hsw2
    · have h1 := pString_size _ _ hk
      simp at h1
      have h2 := length_skipWs_le r1
      rw [hsw1] at h2
      have h3 := hpv _ _ _ hv
      have h4 := length_skipWs_le t2
      have h5 := length_skipWs_le r2
      rw [hsw2] at h5
      cases h
      simp only [szPairs, List.map_cons, List.sum_cons, List.map_nil, List.sum_nil,
        List.length_cons] at *
      omega
    · obtain ⟨a, b, hq, hfq⟩ := h
      have h1 := pString_size _ _ hk
      simp at h1
      have h2 := length_skipWs_le r1
      rw [hsw1] at h2
      have h3 := hpv _ _ _ hv
      have h4 := length_skipWs_le t2
      have h5 := length_skipWs_le r2
      rw [hsw2] at h5
      have h6 := length_skipWs_le t3
      have h7 := ih _ _ _ hq
      cases hfq
      simp only [szPairs, List.map_cons, List.sum_cons, List.length_cons] at *
      omega

set_option maxHeartbeats 2000000 in
lemma pVal_size : ∀ n cs p, pVal n cs = some p → szJ p.1 + p.2.length ≤ cs.length := by
  intro n
  induction n with
  | zero => intro cs p h; simp [pVal] at h
  | succ m ih =>
    intro cs p h
    simp only [pVal] at h
    repeat' split at h
    all_goals try simp_all
    · -- string literal
      rename_i csx t
      obtain ⟨a, b, hq, hfq⟩ := h
      have hs := pString_size _ _ hq
      simp at hs
      cases hfq
      simp only [szJ] at *
      omega
    · -- empty object
      rename_i csx t o1 t2 hsw
      cases h
      have h2 := length_skipWs_le t
      rw [hsw] at h2
      simp only [szJ, szO, List.length_cons] at *
      omega
    · -- non-empty object
      rename_i csx t o1 o2
      obtain ⟨a, b, hq, hfq⟩ := h
      have hpv2 : ∀ cs2 p2, pVal m cs2 = some p2 → szJ p2.1 + p2.2.length ≤ cs2.length := by
        intro cs2 p2 hh
        obtain ⟨pa, pb⟩ := p2
        exact ih _ _ _ hh
      have hs := pPairs_size (pVal m) hpv2 m _ _ hq
      simp at hs
      have hd := szO_dictify_le a
      have h2 := length_skipWs_le t
      cases hfq
      simp only [szJ] at *
      omega
    · -- empty array
      rename_i csx t o1 t2 hsw
      cases h
      have h2 := length_skipWs_le t
      rw [hsw] at h2
      simp only [szJ, szA, List.length_cons] at *
      omega
    · -- non-empty array
      rename_i csx t o1 o2
      obtain ⟨a, b, hq, hfq⟩ := h
      have hpv2 : ∀ cs2 p2, pVal m cs2 = some p2 → szJ p2.1 + p2.2.length ≤ cs2.length := by
        intro cs2 p2 hh
        obtain ⟨pa, pb⟩ := p2
        exact ih _ _ _ hh
      have hs := pItems_size (pVal m) hpv2 m _ _ hq
      simp at hs
      have h2 := length_skipWs_le t
      cases hfq
      simp only [szJ] at *
      omega
    · cases h; simp only [szJ]; omega
    · cases h; simp only [szJ]; omega
    · cases h; simp only [szJ]; omega
    · exact pNum_size _ _ h

lemma loads_size : ∀ s v, loads s = some v → szJ v ≤ s.length := by
  intro s v h
  simp only [loads] at h
  cases hp : pVal (2 * (skipWs s).length + 4) (skipWs s) with
  | none => rw [hp] at h; simp at h
  | some q =>
    rw [hp] at h
    obtain ⟨v2, r⟩ := q
    dsimp only at h
    have hs := pVal_size _ _ _ hp
    simp at hs
    have hw := length_skipWs_le s
    by_cases hz : skipWs r = []
    · rw [if_pos hz] at h
      cases h
      omega
    · rw [if_neg hz] at h
      simp at h

/-! ### Nested JSON expansion, widgets version
(`JSONViewer._expand_nested_json`, no depth parameter) -/

/-- The widgets-module JSON-shape check:
`len(stripped) > 1 and (stripped.startswith('{') or stripped.startswith('['))`. -/
def widgetsCheck (s : List Char) : Bool :=
  let t := pyStrip s
  decide (1 < t.length) && (t.head? = some '{' || t.head? = some '[')

mutual
/-- `JSONViewer._expand_nested_json`: recursively expand JSON strings,
wrapping each parsed string in the 2-key marker map
`{"_nested_json_": True, "_content_": ...}`.  The Python recursion has no
depth bound; it terminates because a parsed value is smaller (`szJ`) than
the string it was parsed from (`loads_size`). -/
def expandW : JVal → JVal
  | .null => .null
  | .bool b => .bool b
  | .num n => .num n
  | .str s =>
    if widgetsCheck s then
      match h : loads (pyStrip s) with
      | some nested =>
        .obj (.cons ("_nested_json_".data) (.bool true)
          (.cons ("_content_".data) (expandW nested) .nil))
      | none => .str s
    else .str s
  | .arr xs => .arr (expandWA xs)
  | .obj kvs => .obj (expandWO kvs)
termination_by v => szJ v
decreasing_by
  · rename_i s hw
    have h1 := loads_size _ _ h
    have h2 := length_pyStrip_le s
    simp only [szJ]
    omega
  · simp only [szJ, szA]; omega
  · simp only [szJ, szO]; omega

def expandWA : JArr → JArr
  | .nil => .nil
  | .cons v tl => .cons (expandW v) (expandWA tl)
termination_by xs => szA xs
decreasing_by
  · simp only [szA]; omega
  · simp only [szA]; omega

def expandWO : JObj → JObj
  | .nil => .nil
  | .cons k v tl => .cons k (expandW v) (expandWO tl)
termination_by kvs => szO kvs
decreasing_by
  · simp only [szO]; omega
  · simp only [szO]; omega
end

/-! Fuel-indexed variant of the widgets expansion, used to state that the
recursion finishes within `szJ v` steps (claim C9). -/

def optJA (f : JVal → Option JVal) : JArr → Option JArr
  | .nil => some .nil
  | .cons v tl =>
    match f v, optJA f tl with
    | some v2, some tl2 => some (.cons v2 tl2)
    | _, _ => none

def optJO (f : JVal → Option JVal) : JObj → Option JObj
  | .nil => some .nil
  | .cons k v tl =>
    match f v, optJO f tl with
    | some v2, some tl2 => some (.cons k v2 tl2)
    | _, _ => none

/-- The widgets expansion with an explicit step budget: `none` when the
budget is exhausted, mirroring `expandW`s recursion exactly otherwise. -/
def expandWFuel : Nat → JVal → Option JVal
  | 0, _ => none
  | n + 1, v =>
    match v with
    | .null => some .null
    | .bool b => some (.bool b)
    | .num k => some (.num k)
    | .str s =>
      if widgetsCheck s then
        match loads (pyStrip s) with
        | some nested =>
          (expandWFuel n nested).map
            (fun c => .obj (.cons ("_nested_json_".data) (.bool true)
              (.cons ("_content_".data) c .nil)))
        | none => some (.str s)
      else some (.str s)
    | .arr xs => (optJA (expandWFuel n) xs).map .arr
    | .obj kvs => (optJO (expandWFuel n) kvs).map .obj

example : expandWFuel 20 (.obj (.ofList [("a".data, .str ("[1]".data))])) =
    some (.obj (.ofList [("a".data,
      .obj (.ofList [("_nested_json_".data, .bool true),
                     ("_content_".data, .arr (.ofList [.num 1]))]))])) := rfl
example : expandWFuel 20 (.str ("x".data)) = some (.str ("x".data)) := rfl

lemma szJ_pos : ∀ v, 1 ≤ szJ v := by
  intro v
  cases v <;> simp only [szJ] <;> omega

lemma expandW_null : expandW .null = .null := by rw [expandW]
lemma expandW_bool (b : Bool) : expandW (.bool b) = .bool b := by rw [expandW]
lemma expandW_num (n : Int) : expandW (.num n) = .num n := by rw [expandW]
lemma expandW_arr (xs : JArr) : expandW (.arr xs) = .arr (expandWA xs) := by rw [expandW]
lemma expandW_obj (kvs : JObj) : expandW (.obj kvs) = .obj (expandWO kvs) := by rw [expandW]

lemma expandWA_nil : expandWA .nil = .nil := by rw [expandWA]
lemma expandWA_cons (v : JVal) (tl : JArr) :
    expandWA (.cons v tl) = .cons (expandW v) (expandWA tl) := by rw [expandWA]
lemma expandWO_nil : expandWO .nil = .nil := by rw [expandWO]
lemma expandWO_cons (k : List Char) (v : JVal) (tl : JObj) :
    expandWO (.cons k v tl) = .cons k (expandW v) (expandWO tl) := by rw [expandWO]

lemma expandW_str_parse (s : List Char) (v : JVal) (hw : widgetsCheck s = true)
    (hl : loads (pyStrip s) = some v) :
    expandW (.str s) = .obj (.cons ("_nested_json_".data) (.bool true)
      (.cons ("_content_".data) (expandW v) .nil)) := by
  rw [expandW]
  simp only [hw, if_true]
  split
  · rename_i nested hn
    rw [hl] at hn
    cases hn
    rfl
  · rename_i hn
    rw [hl] at hn
    simp at hn

lemma expandW_str_fail (s : List Char) (hl : loads (pyStrip s) = none) :
    expandW (.str s) = .str s := by
  rw [expandW]
  by_cases hw : widgetsCheck s = true
  · simp only [hw, if_true]
    split
    · rename_i nested hn
      rw [hl] at hn
      simp at hn
    · rfl
  · simp [hw]

lemma expandW_str_nocheck (s : List Char) (hw : widgetsCheck s = false) :
    expandW (.str s) = .str s := by
  rw [expandW]
  simp [hw]

/-! A value is *saturated* when a further expansion pass cannot change it:
every string leaf either fails the JSON-shape check or fails to parse.
Every output of `expandW` is saturated, and `expandW` fixes saturated
values; together these give the idempotence of the widgets expansion. -/

mutual
inductive Sat : JVal → Prop where
  | null : Sat .null
  | bool (b : Bool) : Sat (.bool b)
  | num (n : Int) : Sat (.num n)
  | str (s : List Char) (h : widgetsCheck s = true → loads (pyStrip s) = none) : Sat (.str s)
  | arr (xs : JArr) (h : SatA xs) : Sat (.arr xs)
  | obj (kvs : JObj) (h : SatO kvs) : Sat (.obj kvs)

inductive SatA : JArr → Prop where
  | nil : SatA .nil
  | cons (v : JVal) (tl : JArr) (hv : Sat v) (ht : SatA tl) : SatA (.cons v tl)

inductive SatO : JObj → Prop where
  | nil : SatO .nil
  | cons (k : List Char) (v : JVal) (tl : JObj) (hv : Sat v) (ht : SatO tl) :
      SatO (.cons k v tl)
end

mutual
lemma sat_fix : ∀ v, Sat v → expandW v = v
  | _, .null => expandW_null
  | _, .bool b => expandW_bool b
  | _, .num n => expandW_num n
  | _, .str s h => by
    by_cases hw : widgetsCheck s = true
    · exact expandW_str_fail s (h hw)
    · exact expandW_str_nocheck s (by simpa using hw)
  | _, .arr xs h => by rw [expandW_arr, sat_fixA xs h]
  | _, .obj kvs h => by rw [expandW_obj, sat_fixO kvs h]

lemma sat_fixA : ∀ xs, SatA xs → expandWA xs = xs
  | _, .nil => expandWA_nil
  | _, .cons v tl hv ht => by rw [expandWA_cons, sat_fix v hv, sat_fixA tl ht]

lemma sat_fixO : ∀ kvs, SatO kvs → expandWO kvs = kvs
  | _, .nil => expandWO_nil
  | _, .cons k v tl hv ht => by rw [expandWO_cons, sat_fix v hv, sat_fixO tl ht]
end

mutual
lemma expandW_sat : ∀ v, Sat (expandW v)
  | .null => by rw [expandW_null]; exact .null
  | .bool b => by rw [expandW_bool]; exact .bool b
  | .num n => by rw [expandW_num]; exact .num n
  | .str s => by
    by_cases hw : widgetsCheck s = true
    · cases hl : loads (pyStrip s) with
      | some nested =>
        rw [expandW_str_parse s nested hw hl]
        exact .obj _ (.cons _ _ _ (.bool true)
          (.cons _ _ _ (expandW_sat nested) .nil))
      | none =>
        rw [expandW_str_fail s hl]
        exact .str s (fun _ => hl)
    · rw [expandW_str_nocheck s (by simpa using hw)]
      exact .str s (fun hc => absurd hc hw)
  | .arr xs => by rw [expandW_arr]; exact .arr _ (expandWA_sat xs)
  | .obj kvs => by rw [expandW_obj]; exact .obj _ (expandWO_sat kvs)
termination_by v => szJ v
decreasing_by
  · have h1 := loads_size _ _ hl
    have h2 := length_pyStrip_le s
    simp only [szJ]
    omega
  · simp only [szJ, szA]; omega
  · simp only [szJ, szO]; omega

lemma expandWA_sat : ∀ xs, SatA (expandWA xs)
  | .nil => by rw [expandWA_nil]; exact .nil
  | .cons v tl => by
    rw [expandWA_cons]
    exact .cons _ _ (expandW_sat v) (expandWA_sat tl)
termination_by xs => szA xs
decreasing_by
  · simp only [szA]; omega
  · simp only [szA]; omega

lemma expandWO_sat : ∀ kvs, SatO (expandWO kvs)
  | .nil => by rw [expandWO_nil]; exact .nil
  | .cons k v tl => by
    rw [expandWO_cons]
    exact .cons _ _ _ (expandW_sat v) (expandWO_sat tl)
termination_by kvs => szO kvs
decreasing_by
  · simp only [szO]; omega
  · simp only [szO]; omega
end

lemma expandW_idem (v : JVal) : expandW (expandW v) = expandW v :=
  sat_fix _ (expandW_sat v)

lemma optJA_all (n : Nat) (hpt : ∀ v, szJ v ≤ n → expandWFuel n v = some (expandW v)) :
    ∀ xs, szA xs ≤ n → optJA (expandWFuel n) xs = some (expandWA xs)
  | .nil, _ => by simp [optJA, expandWA_nil]
  | .cons v tl, h => by
    have hv : szJ v ≤ n := by simp only [szA] at h; omega
    have ht : szA tl ≤ n := by simp only [szA] at h; omega
    have e1 := hpt v hv
    have e2 := optJA_all n hpt tl ht
    rw [expandWA_cons]
    simp [optJA, e1, e2]

lemma optJO_all (n : Nat) (hpt : ∀ v, szJ v ≤ n → expandWFuel n v = some (expandW v)) :
    ∀ kvs, szO kvs ≤ n → optJO (expandWFuel n) kvs = some (expandWO kvs)
  | .nil, _ => by simp [optJO, expandWO_nil]
  | .cons k v tl, h => by
    have hv : szJ v ≤ n := by simp only [szO] at h; omega
    have ht : szO tl ≤ n := by simp only [szO] at h; omega
    have e1 := hpt v hv
    have e2 := optJO_all n hpt tl ht
    rw [expandWO_cons]
    simp [optJO, e1, e2]

/-- With a budget of at least `szJ v` steps the fuel-indexed widgets
expansion finishes, with the same result as the unbounded recursion. -/
lemma expandWFuel_suff : ∀ n v, szJ v ≤ n → expandWFuel n v = some (expandW v) := by
  intro n
  induction n with
  | zero => intro v h; have := szJ_pos v; omega
  | succ m ih =>
    intro v h
    cases v with
    | null => simp [expandWFuel, expandW_null]
    | bool b => simp [expandWFuel, expandW_bool]
    | num k => simp [expandWFuel, expandW_num]
    | str s =>
      simp only [expandWFuel]
      by_cases hw : widgetsCheck s = true
      · simp only [hw, if_true]
        cases hl : loads (pyStrip s) with
        | some nested =>
          have hsz : szJ nested ≤ m := by
            have h1 := loads_size _ _ hl
            have h2 := length_pyStrip_le s
            simp only [szJ] at h
            omega
          dsimp only
          rw [ih nested hsz, expandW_str_parse s nested hw hl]
          rfl
        | none => rw [expandW_str_fail s hl]
      · simp only [hw, if_false, Bool.false_eq_true]
        rw [expandW_str_nocheck s (by simpa using hw)]
    | arr xs =>
      have hxs : szA xs ≤ m := by simp only [szJ] at h; omega
      have e := optJA_all m ih xs hxs
      simp only [expandWFuel, e, expandW_arr, Option.map_some']
    | obj kvs =>
      have hkvs : szO kvs ≤ m := by simp only [szJ] at h; omega
      have e := optJO_all m ih kvs hkvs
      simp only [expandWFuel, e, expandW_obj, Option.map_some']

/-! ### Unfolding lemmas for the depth-bounded expansion -/

lemma expandCv_nonpos (v : JVal) (d : Int) (h : d ≤ 0) : expandCv v d = v := by
  unfold expandCv
  rw [Int.toNat_of_nonpos h]
  rfl

lemma expandCv_str_parse (s : List Char) (v : JVal) (d : Int) (hd : 0 < d)
    (hw : pyLooksLikeJson s = true) (hl : loads s = some v) :
    expandCv (.str s) d = expandCv v (d - 1) := by
  unfold expandCv
  have h1 : d.toNat = (d - 1).toNat + 1 := by omega
  rw [h1]
  simp only [expandCvNat, hw, if_true, hl]

lemma expandCv_str_id (s : List Char) (d : Int)
    (h : pyLooksLikeJson s = false ∨ loads s = none) :
    expandCv (.str s) d = .str s := by
  unfold expandCv
  cases hn : d.toNat with
  | zero => rfl
  | succ m =>
    rcases h with h | h
    · simp [expandCvNat, h]
    · by_cases hw : pyLooksLikeJson s = true
      · simp [expandCvNat, hw, h]
      · simp [expandCvNat, hw]

/-! ### `json.dumps(v, indent=2)` (default `ensure_ascii=True`) -/

def hexDigit (n : Nat) : Char :=
  if n < 10 then Char.ofNat (48 + n) else Char.ofNat (87 + n)

/-- `\uXXXX` escape (lower-case hex, as Python emits). -/
def uEscape (n : Nat) : List Char :=
  ['\\', 'u', hexDigit (n / 4096 % 16), hexDigit (n / 256 % 16),
   hexDigit (n / 16 % 16), hexDigit (n % 16)]

/-- JSON string-character escaping with `ensure_ascii=True`: named escapes,
`\u00XX` for other control characters, `\uXXXX` for all non-ASCII (astral
code points as surrogate pairs). -/
def escJsonChar (c : Char) : List Char :=
  if c = '"' then ['\\', '"']
  else if c = '\\' then ['\\', '\\']
  else if c = '\n' then ['\\', 'n']
  else if c = '\r' then ['\\', 'r']
  else if c = '\t' then ['\\', 't']
  else if c.toNat = 8 then ['\\', 'b']
  else if c.toNat = 12 then ['\\', 'f']
  else if c.toNat < 0x20 then uEscape c.toNat
  else if c.toNat < 0x7f then [c]
  else if c.toNat < 0x10000 then uEscape c.toNat
  else
    uEscape (0xD800 + (c.toNat - 0x10000) / 0x400) ++
    uEscape (0xDC00 + (c.toNat - 0x10000) % 0x400)

/-- JSON string-character escaping with `ensure_ascii=False`: only the
mandatory escapes; non-ASCII characters are kept as-is. -/
def escJsonCharNA (c : Char) : List Char :=
  if c = '"' then ['\\', '"']
  else if c = '\\' then ['\\', '\\']
  else if c = '\n' then ['\\', 'n']
  else if c = '\r' then ['\\', 'r']
  else if c = '\t' then ['\\', 't']
  else if c.toNat = 8 then ['\\', 'b']
  else if c.toNat = 12 then ['\\', 'f']
  else if c.toNat < 0x20 then uEscape c.toNat
  else [c]

def quoteJWith (esc : Char → List Char) (s : List Char) : List Char :=
  '"' :: ((s.map esc).flatten ++ ['"'])

def quoteJ (s : List Char) : List Char := quoteJWith escJsonChar s

def intRepr (n : Int) : List Char := (toString n).data

def indentSp : Nat → List Char
  | 0 => []
  | n + 1 => ' ' :: indentSp n

mutual
/-- `json.dumps(value, indent=2)` at nesting level `lvl`, with the
string-escaping function `esc` (`escJsonChar` for the default
`ensure_ascii=True`, `escJsonCharNA` for `ensure_ascii=False`): each
member on its own line at `2*(lvl+1)` spaces, key separator `": "`, item
separator `","` followed by the newline. -/
def dumpsV (esc : Char → List Char) : JVal → Nat → List Char
  | .null, _ => "null".data
  | .bool true, _ => "true".data
  | .bool false, _ => "false".data
  | .num n, _ => intRepr n
  | .str s, _ => quoteJWith esc s
  | .arr .nil, _ => "[]".data
  | .arr (.cons v tl), lvl =>
    '[' :: '\n' :: (indentSp (2 * (lvl + 1)) ++ dumpsV esc v (lvl + 1) ++ dumpsA esc tl (lvl + 1) ++
      '\n' :: (indentSp (2 * lvl) ++ [']']))
  | .obj .nil, _ => "\x7b\x7d".data
  | .obj (.cons k v tl), lvl =>
    '\x7b' :: '\n' :: (indentSp (2 * (lvl + 1)) ++ quoteJWith esc k ++ ':' :: ' ' ::
      dumpsV esc v (lvl + 1) ++ dumpsO esc tl (lvl + 1) ++ '\n' :: (indentSp (2 * lvl) ++ ['\x7d']))

def dumpsA (esc : Char → List Char) : JArr → Nat → List Char
  | .nil, _ => []
  | .cons v tl, lvl =>
    ',' :: '\n' :: (indentSp (2 * lvl) ++ dumpsV esc v lvl ++ dumpsA esc tl lvl)

def dumpsO (esc : Char → List Char) : JObj → Nat → List Char
  | .nil, _ => []
  | .cons k v tl, lvl =>
    ',' :: '\n' :: (indentSp (2 * lvl) ++ quoteJWith esc k ++ ':' :: ' ' ::
      dumpsV esc v lvl ++ dumpsO esc tl lvl)
end

/-- `json.dumps(v, indent=2)` (default `ensure_ascii=True`). -/
def dumps2 (v : JVal) : List Char := dumpsV escJsonChar v 0

/-- `json.dumps(v, indent=2, ensure_ascii=False)`. -/
def dumps2NA (v : JVal) : List Char := dumpsV escJsonCharNA v 0

example : dumps2 (.obj (.ofList [("a".data, .num 1), ("b".data, .arr (.ofList [.num 2]))])) =
    "\x7b\n  \"a\": 1,\n  \"b\": [\n    2\n  ]\n\x7d".data := rfl

/-! ### Python `str()` / `repr()` of JSON-like values.
`str()` surfaces in the renderer only inside fallback text blocks whose
exact contents no claim inspects; the quoting rules follow CPython `repr`
(single quotes preferred; double quotes when the string contains a single
quote and no double quote).  Which characters CPython considers printable
follows unicodedata; this model keeps every character at or above 0x20
except 0x7f, an approximation irrelevant to the claims. -/

def escReprChar (q : Char) (c : Char) : List Char :=
  if c = '\\' then ['\\', '\\']
  else if c = q then ['\\', q]
  else if c = '\n' then ['\\', 'n']
  else if c = '\r' then ['\\', 'r']
  else if c = '\t' then ['\\', 't']
  else if c.toNat < 0x20 || c.toNat = 0x7f then
    ['\\', 'x', hexDigit (c.toNat / 16), hexDigit (c.toNat % 16)]
  else [c]

def pyReprStr (s : List Char) : List Char :=
  let q := if s.contains '\'' && !(s.contains '"') then '"' else '\''
  q :: ((s.map (escReprChar q)).flatten ++ [q])

mutual
def pyReprV : JVal → List Char
  | .null => "None".data
  | .bool true => "True".data
  | .bool false => "False".data
  | .num n => intRepr n
  | .str s => pyReprStr s
  | .arr .nil => "[]".data
  | .arr (.cons v tl) => '[' :: (pyReprV v ++ pyReprA tl ++ [']'])
  | .obj .nil => "\x7b\x7d".data
  | .obj (.cons k v tl) =>
    '\x7b' :: (pyReprStr k ++ ':' :: ' ' :: pyReprV v ++ pyReprO tl ++ ['\x7d'])

def pyReprA : JArr → List Char
  | .nil => []
  | .cons v tl => ',' :: ' ' :: (pyReprV v ++ pyReprA tl)

def pyReprO : JObj → List Char
  | .nil => []
  | .cons k v tl => ',' :: ' ' :: (pyReprStr k ++ ':' :: ' ' :: pyReprV v ++ pyReprO tl)
end

/-- Python `str(x)` for the values in the model. -/
def pyStr : JVal → List Char
  | .str s => s
  | v => pyReprV v

/-! ### The turn renderer (`ConversationViewer`)

Python operations that can raise are modelled in `Except PyErr`:
`x.get(...)` on a non-dict raises `AttributeError` (so does `str.strip`
on a non-string), iteration over a non-iterable raises `TypeError`, and
`rich.Text` construction/append and `str.join` require strings
(`TypeError` otherwise).  `RNode` is the tree of rich renderables; the
cosmetic emoji prefixes of the label strings are omitted, no claim
inspects them. -/

inductive PyErr where
  | attributeError : PyErr
  | typeError : PyErr
deriving DecidableEq, Repr

inductive RNode where
  | textN (content : List Char) (style : List Char) : RNode
  | codeN (code : List Char) (lang : List Char) : RNode
  | markdownN (src : List Char) : RNode
  | panelN (body : List RNode) (title : List Char) : RNode

def JArr.toList : JArr → List JVal
  | .nil => []
  | .cons v tl => v :: JArr.toList tl

def JObj.keysList : JObj → List (List Char)
  | .nil => []
  | .cons k _ tl => k :: JObj.keysList tl

/-- Python truthiness for the modelled values. -/
def truthy : JVal → Bool
  | .null => false
  | .bool b => b
  | .num n => decide (n ≠ 0)
  | .str s => decide (s ≠ [])
  | .arr .nil => false
  | .arr _ => true
  | .obj .nil => false
  | .obj _ => true

def lookupO : JObj → List Char → Option JVal
  | .nil, _ => none
  | .cons k v tl, key => if k = key then some v else lookupO tl key

/-- `x.get(key, dflt)`: `AttributeError` unless `x` is a dict. -/
def pyGet (v : JVal) (key : List Char) (dflt : JVal) : Except PyErr JVal :=
  match v with
  | .obj kvs => .ok ((lookupO kvs key).getD dflt)
  | _ => .error .attributeError

/-- `for x in v`: lists yield elements, strings yield 1-character
strings, dicts yield their keys; other values raise `TypeError`. -/
def pyIter (v : JVal) : Except PyErr (List JVal) :=
  match v with
  | .arr xs => .ok xs.toList
  | .str s => .ok (s.map (fun c => .str [c]))
  | .obj kvs => .ok (kvs.keysList.map .str)
  | _ => .error .typeError

/-- `rich.Text(...)`/`Text.append(...)` accept only strings. -/
def textAppendStr (v : JVal) : Except PyErr (List Char) :=
  match v with
  | .str s => .ok s
  | _ => .error .typeError

/-- `ConversationViewer._looks_like_json` applied to an arbitrary value:
falsy values are not JSON-shaped; `.strip()` on a truthy non-string
raises `AttributeError`. -/
def looksLikeJsonV : JVal → Except PyErr Bool
  | .str s => .ok (pyLooksLikeJson s)
  | v => if truthy v then .error .attributeError else .ok false

/-- The collection loop of `_extract_content_text` over a content list:
dict items contribute their truthy `text` field (of whatever type),
string items contribute themselves, other items are skipped. -/
def collectTexts : List JVal → List JVal
  | [] => []
  | item :: rest =>
    match item with
    | .obj kvs =>
      let text := (lookupO kvs ("text".data)).getD (.str [])
      if truthy text then text :: collectTexts rest else collectTexts rest
    | .str s => .str s :: collectTexts rest
    | _ => collectTexts rest

/-- `sep.join(items)`: `TypeError` on any non-string element. -/
def pyJoin (sep : List Char) : List JVal → Except PyErr (List Char)
  | [] => .ok []
  | [.str s] => .ok s
  | .str s :: r :: rest => (pyJoin sep (r :: rest)).map (fun t => s ++ sep ++ t)
  | _ => .error .typeError

/-- `ConversationViewer._extract_content_text`. -/
def extractContentText (content : JVal) : Except PyErr JVal :=
  if !truthy content then .ok (.str [])
  else
    match content with
    | .str s => .ok (.str s)
    | .arr xs => (pyJoin ['\n'] (collectTexts xs.toList)).map .str
    | .obj kvs => .ok ((lookupO kvs ("text".data)).getD (.str (pyStr (.obj kvs))))
    | v => .ok (.str (pyStr v))

/-- `ConversationViewer._format_json_with_syntax`: nested-expand (depth 5)
then `json.dumps(..., indent=2, ensure_ascii=False)` as a syntax block.
Total: the expansion and serialization cannot fail. -/
def formatJsonWithSyntax (data : JVal) : RNode :=
  .codeN (dumps2NA (expandCv data 5)) ("json".data)

def truncMsg : List Char := "\n\n... [truncated, full content available in raw data]".data

def turnTitle (roleMarkup : List Char) (index : Nat) : List Char :=
  roleMarkup ++ " (Turn ".data ++ (toString index).data ++ ")".data

/-- `_render_system_turn`: extract content, truncate to 500 characters,
dimmed text panel.  When the extracted content is not a string every
continuation raises `TypeError` (`len` on None/bool/int, list/dict
slicing plus string concatenation, or `Text(...)`). -/
def renderSystemTurn (turn : JVal) (index : Nat) : Except PyErr RNode :=
  match pyGet turn ("content".data) .null with
  | .error e => .error e
  | .ok c =>
    match extractContentText c with
    | .error e => .error e
    | .ok (.str s) =>
      .ok (.panelN [.textN (if s.length > 500 then s.take 500 ++ truncMsg else s) ("dim".data)]
        (turnTitle ("System".data) index))
    | .ok _ => .error .typeError

/-- `_render_user_turn`. -/
def renderUserTurn (turn : JVal) (index : Nat) : Except PyErr RNode :=
  match pyGet turn ("content".data) .null with
  | .error e => .error e
  | .ok c =>
    match extractContentText c with
    | .error e => .error e
    | .ok (.str s) =>
      .ok (.panelN [.textN s ("blue".data)] (turnTitle ("User".data) index))
    | .ok _ => .error .typeError

/-- `_render_chatbot_turn`: thinking block from `rationale`, one block
per tool call (name, then parameters pretty-printed; the `try/except`
around the formatting is total in the model), then the `content`
response block; a placeholder when all three are absent. -/
def chatbotTCStep (acc : List RNode) (tc : JVal) : Except PyErr (List RNode) :=
  match pyGet tc ("name".data) (.str ("unknown".data)) with
  | .error e => .error e
  | .ok name =>
    match textAppendStr name with
    | .error e => .error e
    | .ok nameS =>
      match pyGet tc ("parameters".data) (.obj .nil) with
      | .error e => .error e
      | .ok params =>
        .ok (acc ++ [.textN ("Tool Call: ".data ++ nameS) ("bold magenta".data)] ++
          (if truthy params then [formatJsonWithSyntax params] else []) ++ [.textN [] []])

/-- The `for tool_call in tool_calls` loop of `_render_chatbot_turn`. -/
def chatbotTCLoop (acc : List RNode) : List JVal → Except PyErr (List RNode)
  | [] => .ok acc
  | tc :: rest =>
    match chatbotTCStep acc tc with
    | .error e => .error e
    | .ok acc2 => chatbotTCLoop acc2 rest

def thinkingBlocksOf (rationale : JVal) : Except PyErr (List RNode) :=
  if truthy rationale then
    (textAppendStr rationale).map (fun s =>
      [RNode.textN ("Thinking:\n".data ++ s) ("italic yellow".data), .textN [] []])
  else .ok []

def tcBlocksOf (toolCalls : JVal) : Except PyErr (List RNode) :=
  if truthy toolCalls then
    match pyIter toolCalls with
    | .error e => .error e
    | .ok items => chatbotTCLoop [] items
  else .ok []

def responseBlocksOf (content : JVal) : Except PyErr (List RNode) :=
  if truthy content then
    (textAppendStr content).map (fun s =>
      [RNode.textN ("Response:\n".data ++ s) ("italic green".data)])
  else .ok []

def renderChatbotTurn (turn : JVal) (index : Nat) : Except PyErr RNode :=
  match pyGet turn ("rationale".data) .null with
  | .error e => .error e
  | .ok rationale =>
    match thinkingBlocksOf rationale with
    | .error e => .error e
    | .ok thinkingBlocks =>
      match pyGet turn ("tool_calls".data) .null with
      | .error e => .error e
      | .ok toolCalls =>
        match tcBlocksOf toolCalls with
        | .error e => .error e
        | .ok tcBlocks =>
          match pyGet turn ("content".data) .null with
          | .error e => .error e
          | .ok c =>
            match extractContentText c with
            | .error e => .error e
            | .ok content =>
              match responseBlocksOf content with
              | .error e => .error e
              | .ok contentBlocks =>
                .ok (.panelN
                  (if (thinkingBlocks ++ tcBlocks ++ contentBlocks).isEmpty then
                    [.textN ("[No content]".data) ("dim".data)]
                  else thinkingBlocks ++ tcBlocks ++ contentBlocks)
                  (turnTitle ("Chatbot".data) index))

/-- `_render_tool_turn`: for each tool result, a header from
`tool_call_id` and one block per output: JSON-shaped string text is
parsed and pretty-printed (falling back to plain text on parse failure),
other truthy text renders as plain text (a truthy non-string `text`
raises inside `_looks_like_json`), an output without truthy text is
pretty-printed whole, and a non-dict output becomes `str(output)`. -/
def toolOutStep (acc2 : List RNode) (output : JVal) : Except PyErr (List RNode) :=
  match output with
  | .obj kvs =>
    let textContent := (lookupO kvs ("text".data)).getD (.str [])
    if !truthy textContent then
      .ok (acc2 ++ [formatJsonWithSyntax (.obj kvs)])
    else
      match looksLikeJsonV textContent with
      | .error e => .error e
      | .ok isJson =>
        match textContent with
        | .str s =>
          if isJson then
            match loads s with
            | some parsed => .ok (acc2 ++ [formatJsonWithSyntax parsed])
            | none => .ok (acc2 ++ [.textN s ("yellow".data)])
          else .ok (acc2 ++ [.textN s ("yellow".data)])
        | _ => .error .attributeError
  | other => .ok (acc2 ++ [.textN (pyStr other) ("yellow".data)])

/-- The `for output in outputs` loop of `_render_tool_turn`. -/
def toolOutLoop (acc : List RNode) : List JVal → Except PyErr (List RNode)
  | [] => .ok acc
  | output :: rest =>
    match toolOutStep acc output with
    | .error e => .error e
    | .ok acc2 => toolOutLoop acc2 rest

def toolTRStep (acc : List RNode) (tr : JVal) : Except PyErr (List RNode) :=
  match pyGet tr ("tool_call_id".data) (.str ("unknown".data)) with
  | .error e => .error e
  | .ok tcid =>
    match pyGet tr ("outputs".data) (.arr .nil) with
    | .error e => .error e
    | .ok outputs =>
      match pyIter outputs with
      | .error e => .error e
      | .ok outs =>
        match toolOutLoop [] outs with
        | .error e => .error e
        | .ok outBlocks =>
          .ok (acc ++ .textN ("Result for: ".data ++ pyStr tcid) ("bold yellow".data) ::
            outBlocks ++ [.textN [] []])

/-- The `for tool_result in tool_results` loop of `_render_tool_turn`. -/
def toolTRLoop (acc : List RNode) : List JVal → Except PyErr (List RNode)
  | [] => .ok acc
  | tr :: rest =>
    match toolTRStep acc tr with
    | .error e => .error e
    | .ok acc2 => toolTRLoop acc2 rest

def renderToolTurn (turn : JVal) (index : Nat) : Except PyErr RNode :=
  match pyGet turn ("tool_results".data) (.arr .nil) with
  | .error e => .error e
  | .ok trs =>
    match pyIter trs with
    | .error e => .error e
    | .ok items =>
      match toolTRLoop [] items with
      | .error e => .error e
      | .ok blocks =>
        .ok (.panelN
          (if blocks.isEmpty then [.textN ("[No tool results]".data) ("dim".data)] else blocks)
          (turnTitle ("Tool Results".data) index))

/-- `_render_unknown_turn`: a raw `json.dumps(turn, indent=2)` dump; the
`try/except` fallback is total in the model. -/
def renderUnknownTurn (turn : JVal) (index : Nat) : RNode :=
  .panelN [.codeN (dumps2 turn) ("json".data)] (turnTitle ("Unknown Turn Type".data) index)

/-- `ConversationViewer._render_turn` (the `renderTurn` entry point of
the spec): dispatch on the `role` field. -/
def renderTurn (turn : JVal) (index : Nat) : Except PyErr RNode :=
  match pyGet turn ("role".data) (.str ("Unknown".data)) with
  | .error e => .error e
  | .ok role =>
    if role = .str ("System".data) then renderSystemTurn turn index
    else if role = .str ("User".data) then renderUserTurn turn index
    else if role = .str ("Chatbot".data) then renderChatbotTurn turn index
    else if role = .str ("Tool".data) then renderToolTurn turn index
    else .ok (renderUnknownTurn turn index)

example :
    renderTurn (.obj (.ofList [("role".data, .str ("Tool".data)),
      ("tool_results".data, .arr (.ofList [.num 1]))])) 0 =
    .error .attributeError := rfl

example :
    renderTurn (.obj (.ofList [("role".data, .str ("User".data)),
      ("content".data, .str ("hi".data))])) 3 =
    .ok (.panelN [.textN ("hi".data) ("blue".data)] (turnTitle ("User".data) 3)) := rfl

/-! ### The code-fence splitter (`_render_text_with_code_blocks`)

The regex is ````(\w+)?\n(.*?)``` `` with DOTALL: three backticks, an
optional word-character language tag (ASCII subset of `\w` modelled; the
greedy tag match followed by the mandatory newline is deterministic
because `\n` is not a word character), then the shortest body up to the
next three backticks.  `re.finditer` semantics: leftmost matches,
scanning resumes after each match. -/

def isWordChar (c : Char) : Bool :=
  ('a' ≤ c && c ≤ 'z') || ('A' ≤ c && c ≤ 'Z') || ('0' ≤ c && c ≤ '9') || c = '_'

/-- Shortest prefix up to the next ```` ``` ````, with the rest after it. -/
def findTriple : List Char → Option (List Char × List Char)
  | [] => none
  | '`' :: '`' :: '`' :: r => some ([], r)
  | c :: t => (findTriple t).map (fun p => (c :: p.1, p.2))

/-- Try to match one fenced block at the head of `cs`:
`(language?, body, rest)`. -/
def fenceAt : List Char → Option (Option (List Char) × List Char × List Char)
  | '`' :: '`' :: '`' :: r =>
    let p := r.span (fun c => isWordChar c)
    match p.2 with
    | '\n' :: r2 =>
      (findTriple r2).map (fun q => ((if p.1 = [] then none else some p.1), q.1, q.2))
    | _ => none
  | _ => none

/-- All fence matches in order, each with the prose before it, plus the
trailing prose (`finditer` + `last_end` slicing).  Fuel bounds the scan;
every step consumes at least one character. -/
def scanFences :
    Nat → List Char → List Char →
    (List (List Char × Option (List Char) × List Char)) × List Char
  | 0, cs, acc => ([], acc.reverse ++ cs)
  | n + 1, cs, acc =>
    match fenceAt cs with
    | some (lang, body, rest) =>
      let p := scanFences n rest []
      ((acc.reverse, lang, body) :: p.1, p.2)
    | none =>
      match cs with
      | [] => ([], acc.reverse)
      | c :: t => scanFences n t (c :: acc)

def splitFences (text : List Char) :
    (List (List Char × Option (List Char) × List Char)) × List Char :=
  scanFences (text.length + 1) text []

def pyLower (s : List Char) : List Char := s.map Char.toLower

/-- One code segment: a `json`-tagged fence is parsed and re-serialized
with `json.dumps(..., indent=2)`; on `JSONDecodeError` the (stripped)
content is passed through; other languages pass the content through. -/
def renderCodeSeg (language : List Char) (codeContent : List Char) : RNode :=
  if pyLower language = "json".data then
    match loads codeContent with
    | some parsed => .codeN (dumps2 parsed) ("json".data)
    | none => .codeN codeContent ("json".data)
  else .codeN codeContent language

/-- `_render_text_with_code_blocks`: prose before each fence as markdown
(when non-whitespace), the fence as a syntax block
(`code_content = match.group(2).strip()`) followed by a spacing text,
then the trailing prose. -/
def renderTextWithCodeBlocks (text : List Char) : List RNode :=
  ((splitFences text).1.map (fun f =>
    (if pyStrip f.1 ≠ [] then [RNode.markdownN f.1] else []) ++
    [renderCodeSeg ((f.2.1).getD ("text".data)) (pyStrip f.2.2), .textN [] []])).flatten ++
  (if pyStrip (splitFences text).2 ≠ [] then [RNode.markdownN (splitFences text).2] else [])

/-- The `(language, code)` pairs of the syntax blocks among rendered
elements, in order. -/
def codeSegsOf (elems : List RNode) : List (List Char × List Char) :=
  elems.filterMap (fun e =>
    match e with
    | .codeN code lang => some (lang, code)
    | _ => none)

example : splitFences ("a\n```json\n\x7b\"k\": 1\x7d\n```\nb".data) =
    ([("a\n".data, some ("json".data), "\x7b\"k\": 1\x7d\n".data)], "\nb".data) := rfl
example : renderTextWithCodeBlocks ("x\n```json\n[1,2]\n```".data) =
    [.markdownN ("x\n".data), .codeN ("[\n  1,\n  2\n]".data) ("json".data), .textN [] []] := rfl
example : renderTextWithCodeBlocks ("```json\nnot json\n```".data) =
    [.codeN ("not json".data) ("json".data), .textN [] []] := rfl
example : renderTextWithCodeBlocks ("stray ``` fence".data) =
    [.markdownN ("stray ``` fence".data)] := rfl

/-! ### Slice and strip lemmas

Facts about `text[a:b]` and `str.strip()` used by the scanner claims:
adjacent slices concatenate, and strip-nonemptiness is witnessed by a
non-whitespace character and so survives appending. -/

lemma sliceL_split (text : List Char) (a b c : Nat) (h1 : a ≤ b) (h2 : b ≤ c) :
    sliceL text a c = sliceL text a b ++ sliceL text b c := by
  unfold sliceL
  rw [List.drop_take, List.drop_take, List.drop_take]
  have hd : text.drop b = (text.drop a).drop (b - a) := by
    rw [List.drop_drop]; congr 1; omega
  rw [hd]
  have hca : c - a = (b - a) + (c - b) := by omega
  rw [hca, List.take_add]

lemma sliceL_nil (text : List Char) (a b : Nat) (h : b ≤ a) : sliceL text a b = [] := by
  unfold sliceL
  apply List.drop_eq_nil_of_le
  have := List.length_take b text
  omega

lemma mem_dropWhile_of_not (p : Char → Bool) (l : List Char) (c : Char)
    (hc : c ∈ l) (hp : p c = false) : c ∈ l.dropWhile p := by
  induction l with
  | nil => simp at hc
  | cons a t ih =>
    rw [List.dropWhile_cons]
    split
    · rename_i ha
      rcases List.mem_cons.1 hc with h | h
      · subst h; rw [hp] at ha; simp at ha
      · exact ih h
    · exact hc

lemma pyStrip_ne_nil_of_mem (l : List Char) (c : Char) (hc : c ∈ l)
    (hp : pyIsSpace c = false) : pyStrip l ≠ [] := by
  unfold pyStrip
  intro h
  rw [List.reverse_eq_nil_iff] at h
  have h1 : c ∈ l.dropWhile pyIsSpace := mem_dropWhile_of_not _ _ _ hc hp
  have h2 : c ∈ (l.dropWhile pyIsSpace).reverse := by simpa using h1
  have h3 := mem_dropWhile_of_not _ _ _ h2 hp
  rw [h] at h3
  simp at h3

lemma exists_of_pyStrip_ne_nil (l : List Char) (h : pyStrip l ≠ []) :
    ∃ c ∈ l, pyIsSpace c = false := by
  by_contra hall
  push_neg at hall
  apply h
  unfold pyStrip
  have h1 : l.dropWhile pyIsSpace = [] := by
    rw [List.dropWhile_eq_nil_iff]
    intro x hx
    have := hall x hx
    simp [this]
  rw [h1]
  rfl

lemma pyStrip_append_ne (l t : List Char) (h : pyStrip l ≠ []) : pyStrip (l ++ t) ≠ [] := by
  obtain ⟨c, hc, hp⟩ := exists_of_pyStrip_ne_nil l h
  exact pyStrip_ne_nil_of_mem _ c (List.mem_append_left _ hc) hp

/-! ### Order of the scanner's matches

`re.finditer` yields non-overlapping matches left to right: each match
starts at or after the end of the previous one (here, a marker match
starting at `p` with name `n` ends at `p + n.length + 4`). -/

def OrderedFrom (c : Nat) : List (Nat × List Char) → Prop
  | [] => True
  | (p, n) :: ts => c ≤ p ∧ OrderedFrom (p + n.length + 4) ts

lemma orderedFrom_mono (c c' : Nat) (l : List (Nat × List Char)) (h : c' ≤ c)
    (ho : OrderedFrom c l) : OrderedFrom c' l := by
  cases l with
  | nil => trivial
  | cons m ts =>
    obtain ⟨h1, h2⟩ := ho
    exact ⟨by omega, h2⟩

lemma fmAux_ordered : ∀ n cs i, OrderedFrom i (fmAux n cs i) := by
  intro n
  induction n with
  | zero => intro cs i; trivial
  | succ m ih =>
    intro cs i
    simp only [fmAux]
    cases hm : matchTok cs with
    | some p =>
      exact ⟨le_rfl, ih p.2 (i + p.1.length + 4)⟩
    | none =>
      cases cs with
      | nil => trivial
      | cons c t => exact orderedFrom_mono _ _ _ (by omega) (ih t (i + 1))

lemma findMarkers_ordered (text : List Char) : OrderedFrom 0 (findMarkers text) :=
  fmAux_ordered text.length text 0

/-- If the marker pattern matches at no offset of `cs`, the scan finds
nothing. -/
lemma fmAux_nil : ∀ n cs i, (∀ j, matchTok (cs.drop j) = none) → fmAux n cs i = [] := by
  intro n
  induction n with
  | zero => intro cs i _; rfl
  | succ m ih =>
    intro cs i hm
    simp only [fmAux]
    have h0 := hm 0
    simp only [List.drop_zero] at h0
    rw [h0]
    cases cs with
    | nil => rfl
    | cons c t =>
      apply ih
      intro j
      exact hm (j + 1)

/-! ### Statement helpers for the fence claims -/

/-- The `(language, code)` pair `_render_text_with_code_blocks` is
specified to produce for one fence match `(before, language?, body)`:
the stripped body, re-serialized when it is a `json` fence whose
stripped body parses. -/
def codeSegSpec (f : List Char × Option (List Char) × List Char) : List Char × List Char :=
  if pyLower ((f.2.1).getD ("text".data)) = "json".data then
    match loads (pyStrip f.2.2) with
    | some parsed => ("json".data, dumps2 parsed)
    | none => ("json".data, pyStrip f.2.2)
  else ((f.2.1).getD ("text".data), pyStrip f.2.2)

lemma codeSegsOf_append (l1 l2 : List RNode) :
    codeSegsOf (l1 ++ l2) = codeSegsOf l1 ++ codeSegsOf l2 := by
  simp [codeSegsOf]

lemma codeSegs_block (f : List Char × Option (List Char) × List Char) :
    codeSegsOf ((if pyStrip f.1 ≠ [] then [RNode.markdownN f.1] else []) ++
      [renderCodeSeg ((f.2.1).getD ("text".data)) (pyStrip f.2.2), .textN [] []]) =
    [codeSegSpec f] := by
  rw [codeSegsOf_append]
  have h1 : codeSegsOf (if pyStrip f.1 ≠ [] then [RNode.markdownN f.1] else []) = [] := by
    split <;> rfl
  rw [h1]
  unfold renderCodeSeg codeSegSpec
  split
  · split <;> rfl
  · rfl

lemma codeSegs_flatten (l : List (List Char × Option (List Char) × List Char))
    (tail : List RNode) (ht : codeSegsOf tail = []) :
    codeSegsOf ((l.map (fun f =>
      (if pyStrip f.1 ≠ [] then [RNode.markdownN f.1] else []) ++
      [renderCodeSeg ((f.2.1).getD ("text".data)) (pyStrip f.2.2), .textN [] []])).flatten ++ tail) =
    l.map codeSegSpec := by
  induction l with
  | nil => simpa using ht
  | cons f rest ih =>
    simp only [List.map_cons, List.flatten_cons]
    rw [codeSegsOf_append, codeSegsOf_append, codeSegs_block, List.append_assoc,
      ← codeSegsOf_append, ih]
    rfl

/-- The string `t_k` with `t_0 = "[1]"` and `t_(k+1) = "[" ++ quote(t_k)
++ "]"`: a JSON array whose one element is the JSON encoding of the
previous level, used to exhaust the depth bound of the
conversation-viewer expansion. -/
def nestStr : Nat → List Char
  | 0 => "[1]".data
  | k + 1 => '[' :: (quoteJ (nestStr k) ++ [']'])

/-! ### A schema under which the renderer cannot raise

`renderTurn` *can* raise (`AttributeError`/`TypeError`) on
arbitrarily-typed fields.  The predicates below carve out the shape of
turn records on which every path of the renderer is exception-free: the
turn is a dict; `content` is anything whose extracted text is a string;
`rationale`, when truthy, is a string; `tool_calls`, when truthy, is a
list of dicts whose `name` (when present) is a string; `tool_results`,
when present, is a list of dicts whose `outputs` (when present) is a
list whose dict elements have string (or falsy) `text`. -/

def exOk {α : Type} : Except PyErr α → Bool
  | .ok _ => true
  | .error _ => false

def isStrV : JVal → Bool
  | .str _ => true
  | _ => false

def itemOK : JVal → Bool
  | .obj kvs =>
    !truthy ((lookupO kvs ("text".data)).getD (.str [])) ||
    isStrV ((lookupO kvs ("text".data)).getD (.str []))
  | _ => true

def contentOK : JVal → Bool
  | .arr xs => xs.toList.all itemOK
  | .obj kvs =>
    match lookupO kvs ("text".data) with
    | none => true
    | some (.str _) => true
    | some _ => false
  | _ => true

def rationaleOK (v : JVal) : Bool := !truthy v || isStrV v

def toolCallOK : JVal → Bool
  | .obj kvs =>
    match lookupO kvs ("name".data) with
    | none => true
    | some (.str _) => true
    | some _ => false
  | _ => false

def toolCallsOK (v : JVal) : Bool :=
  !truthy v ||
  (match v with
   | .arr xs => xs.toList.all toolCallOK
   | _ => false)

def toolResultOK : JVal → Bool
  | .obj kvs =>
    match lookupO kvs ("outputs".data) with
    | none => true
    | some (.arr outs) => outs.toList.all itemOK
    | some _ => false
  | _ => false

def toolResultsFieldOK (kvs : JObj) : Bool :=
  match lookupO kvs ("tool_results".data) with
  | none => true
  | some (.arr trs) => trs.toList.all toolResultOK
  | some _ => false

def SchemaTurn : JVal → Bool
  | .obj kvs =>
    contentOK ((lookupO kvs ("content".data)).getD .null) &&
    rationaleOK ((lookupO kvs ("rationale".data)).getD .null) &&
    toolCallsOK ((lookupO kvs ("tool_calls".data)).getD .null) &&
    toolResultsFieldOK kvs
  | _ => false

lemma collectTexts_str : ∀ l : List JVal, l.all itemOK = true →
    ∀ v ∈ collectTexts l, isStrV v = true := by
  intro l
  induction l with
  | nil => intro _ v hv; simp [collectTexts] at hv
  | cons item rest ih =>
    intro h v hv
    rw [List.all_cons, Bool.and_eq_true] at h
    obtain ⟨h1, h2⟩ := h
    cases item with
    | obj kvs =>
      simp only [collectTexts] at hv
      simp only [itemOK] at h1
      by_cases ht : truthy ((lookupO kvs ("text".data)).getD (.str [])) = true
      · rw [if_pos ht] at hv
        rw [ht] at h1
        simp only [Bool.not_true, Bool.false_or] at h1
        rcases List.mem_cons.1 hv with he | hm
        · exact he ▸ h1
        · exact ih h2 v hm
      · rw [if_neg ht] at hv
        exact ih h2 v hv
    | str s =>
      simp only [collectTexts] at hv
      rcases List.mem_cons.1 hv with he | hm
      · subst he; rfl
      · exact ih h2 v hm
    | null => simp only [collectTexts] at hv; exact ih h2 v hv
    | bool b => simp only [collectTexts] at hv; exact ih h2 v hv
    | num n => simp only [collectTexts] at hv; exact ih h2 v hv
    | arr xs => simp only [collectTexts] at hv; exact ih h2 v hv

lemma pyJoin_ok (sep : List Char) : ∀ l, (∀ v ∈ l, isStrV v = true) →
    ∃ s, pyJoin sep l = .ok s := by
  intro l
  induction l with
  | nil => intro _; exact ⟨[], rfl⟩
  | cons v rest ih =>
    intro h
    have hv := h v (List.mem_cons_self v rest)
    cases v with
    | str s =>
      cases rest with
      | nil => exact ⟨s, rfl⟩
      | cons r rest2 =>
        obtain ⟨t, ht⟩ := ih (fun x hx => h x (List.mem_cons_of_mem _ hx))
        refine ⟨s ++ sep ++ t, ?_⟩
        rw [pyJoin, ht]
        rfl
    | null => simp [isStrV] at hv
    | bool b => simp [isStrV] at hv
    | num n => simp [isStrV] at hv
    | arr xs => simp [isStrV] at hv
    | obj kvs => simp [isStrV] at hv

lemma extract_ok (c : JVal) (h : contentOK c = true) :
    ∃ s, extractContentText c = .ok (.str s) := by
  unfold extractContentText
  cases c with
  | null => exact ⟨[], rfl⟩
  | bool b =>
    cases b with
    | false => exact ⟨[], rfl⟩
    | true => exact ⟨_, rfl⟩
  | num n =>
    cases htr : truthy (.num n) with
    | false => exact ⟨[], by simp [htr]⟩
    | true => exact ⟨pyStr (.num n), by simp [htr]⟩
  | str s =>
    cases htr : truthy (.str s) with
    | false => exact ⟨[], by simp [htr]⟩
    | true => exact ⟨s, by simp [htr]⟩
  | arr xs =>
    cases htr : truthy (.arr xs) with
    | false => exact ⟨[], by simp [htr]⟩
    | true =>
      have hall : xs.toList.all itemOK = true := by simpa [contentOK] using h
      obtain ⟨s, hs⟩ := pyJoin_ok ['\n'] (collectTexts xs.toList) (collectTexts_str xs.toList hall)
      exact ⟨s, by simp [htr, hs, Except.map]⟩
  | obj kvs =>
    cases htr : truthy (.obj kvs) with
    | false => exact ⟨[], by simp [htr]⟩
    | true =>
      simp only [contentOK] at h
      cases hlk : lookupO kvs ("text".data) with
      | none => exact ⟨pyStr (.obj kvs), by simp [htr, hlk]⟩
      | some w =>
        rw [hlk] at h
        cases w with
        | str t => exact ⟨t, by simp [htr, hlk]⟩
        | null => exact absurd h (by simp)
        | bool b => exact absurd h (by simp)
        | num n => exact absurd h (by simp)
        | arr a => exact absurd h (by simp)
        | obj o => exact absurd h (by simp)

lemma renderSystemTurn_ok (kvs : JObj) (index : Nat)
    (hc : contentOK ((lookupO kvs ("content".data)).getD .null) = true) :
    exOk (renderSystemTurn (.obj kvs) index) = true := by
  obtain ⟨s, hs⟩ := extract_ok _ hc
  simp [renderSystemTurn, pyGet, hs, exOk]

lemma renderUserTurn_ok (kvs : JObj) (index : Nat)
    (hc : contentOK ((lookupO kvs ("content".data)).getD .null) = true) :
    exOk (renderUserTurn (.obj kvs) index) = true := by
  obtain ⟨s, hs⟩ := extract_ok _ hc
  simp [renderUserTurn, pyGet, hs, exOk]

lemma chatbotTCStep_ok (acc : List RNode) (tc : JVal) (h : toolCallOK tc = true) :
    exOk (chatbotTCStep acc tc) = true := by
  cases tc with
  | obj kvs =>
    simp only [toolCallOK] at h
    cases hlk : lookupO kvs ("name".data) with
    | none => simp [chatbotTCStep, pyGet, hlk, textAppendStr, exOk]
    | some w =>
      rw [hlk] at h
      cases w with
      | str s => simp [chatbotTCStep, pyGet, hlk, textAppendStr, exOk]
      | null => exact absurd h (by simp)
      | bool b => exact absurd h (by simp)
      | num n => exact absurd h (by simp)
      | arr a => exact absurd h (by simp)
      | obj o => exact absurd h (by simp)
  | null => exact absurd h (by simp [toolCallOK])
  | bool b => exact absurd h (by simp [toolCallOK])
  | num n => exact absurd h (by simp [toolCallOK])
  | str s => exact absurd h (by simp [toolCallOK])
  | arr a => exact absurd h (by simp [toolCallOK])

lemma chatbotTCLoop_ok : ∀ (l : List JVal) (acc : List RNode),
    (∀ tc ∈ l, toolCallOK tc = true) → exOk (chatbotTCLoop acc l) = true := by
  intro l
  induction l with
  | nil => intro acc _; rfl
  | cons tc rest ih =>
    intro acc h
    have hs := chatbotTCStep_ok acc tc (h tc (List.mem_cons_self tc rest))
    cases he : chatbotTCStep acc tc with
    | error e => rw [he] at hs; simp [exOk] at hs
    | ok acc2 =>
      simp only [chatbotTCLoop, he]
      exact ih acc2 (fun x hx => h x (List.mem_cons_of_mem _ hx))

lemma thinkingBlocks_ok (r : JVal) (hr : rationaleOK r = true) :
    ∃ tb, thinkingBlocksOf r = .ok tb := by
  unfold thinkingBlocksOf
  by_cases htr : truthy r = true
  · rw [if_pos htr]
    unfold rationaleOK at hr
    rw [htr] at hr
    simp only [Bool.not_true, Bool.false_or] at hr
    cases r with
    | str s => exact ⟨_, rfl⟩
    | null => exact absurd hr (by simp [isStrV])
    | bool b => exact absurd hr (by simp [isStrV])
    | num n => exact absurd hr (by simp [isStrV])
    | arr a => exact absurd hr (by simp [isStrV])
    | obj o => exact absurd hr (by simp [isStrV])
  · rw [if_neg htr]; exact ⟨[], rfl⟩

lemma tcBlocks_ok (t : JVal) (htc : toolCallsOK t = true) :
    ∃ tb, tcBlocksOf t = .ok tb := by
  unfold tcBlocksOf
  by_cases htr : truthy t = true
  · rw [if_pos htr]
    unfold toolCallsOK at htc
    rw [htr] at htc
    simp only [Bool.not_true, Bool.false_or] at htc
    cases t with
    | arr xs =>
      have hloop := chatbotTCLoop_ok xs.toList []
        (fun x hx => (List.all_eq_true.1 htc) x hx)
      cases he : chatbotTCLoop [] xs.toList with
      | error e => rw [he] at hloop; simp [exOk] at hloop
      | ok tb => exact ⟨tb, by simp [pyIter, he]⟩
    | null => exact absurd htc (by simp)
    | bool b => exact absurd htc (by simp)
    | num n => exact absurd htc (by simp)
    | str s => exact absurd htc (by simp)
    | obj o => exact absurd htc (by simp)
  · rw [if_neg htr]; exact ⟨[], rfl⟩

lemma responseBlocks_ok (s : List Char) :
    ∃ rb, responseBlocksOf (JVal.str s) = .ok rb := by
  unfold responseBlocksOf
  by_cases h : truthy (JVal.str s) = true
  · rw [if_pos h]; exact ⟨_, rfl⟩
  · rw [if_neg h]; exact ⟨[], rfl⟩

lemma renderChatbotTurn_ok (kvs : JObj) (index : Nat)
    (hc : contentOK ((lookupO kvs ("content".data)).getD .null) = true)
    (hr : rationaleOK ((lookupO kvs ("rationale".data)).getD .null) = true)
    (htc : toolCallsOK ((lookupO kvs ("tool_calls".data)).getD .null) = true) :
    exOk (renderChatbotTurn (.obj kvs) index) = true := by
  obtain ⟨s, hs⟩ := extract_ok _ hc
  obtain ⟨tb, htb⟩ := thinkingBlocks_ok _ hr
  obtain ⟨cb, hcb⟩ := tcBlocks_ok _ htc
  obtain ⟨rb, hrb⟩ := responseBlocks_ok s
  simp [renderChatbotTurn, pyGet, htb, hcb, hs, hrb, exOk]

lemma toolOutStep_ok (acc2 : List RNode) (output : JVal) (h : itemOK output = true) :
    exOk (toolOutStep acc2 output) = true := by
  cases output with
  | obj kvs =>
    simp only [itemOK] at h
    unfold toolOutStep
    by_cases ht : truthy ((lookupO kvs ("text".data)).getD (.str [])) = true
    · rw [ht] at h
      simp only [Bool.not_true, Bool.false_or] at h
      cases hlk : (lookupO kvs ("text".data)).getD (.str []) with
      | str s =>
        simp only [hlk, looksLikeJsonV]
        split
        · rfl
        · split
          · split <;> rfl
          · rfl
      | null => rw [hlk] at h; exact absurd h (by simp [isStrV])
      | bool b => rw [hlk] at h; exact absurd h (by simp [isStrV])
      | num n => rw [hlk] at h; exact absurd h (by simp [isStrV])
      | arr a => rw [hlk] at h; exact absurd h (by simp [isStrV])
      | obj o => rw [hlk] at h; exact absurd h (by simp [isStrV])
    · rw [Bool.not_eq_true] at ht
      simp [ht, exOk]
  | null => rfl
  | bool b => rfl
  | num n => rfl
  | str s => rfl
  | arr a => rfl

lemma toolOutLoop_ok : ∀ (l : List JVal) (acc : List RNode),
    (∀ v ∈ l, itemOK v = true) → exOk (toolOutLoop acc l) = true := by
  intro l
  induction l with
  | nil => intro acc _; rfl
  | cons output rest ih =>
    intro acc h
    have hs := toolOutStep_ok acc output (h output (List.mem_cons_self output rest))
    cases he : toolOutStep acc output with
    | error e => rw [he] at hs; simp [exOk] at hs
    | ok acc2 =>
      simp only [toolOutLoop, he]
      exact ih acc2 (fun x hx => h x (List.mem_cons_of_mem _ hx))

lemma toolTRStep_ok (acc : List RNode) (tr : JVal) (h : toolResultOK tr = true) :
    exOk (toolTRStep acc tr) = true := by
  cases tr with
  | obj kvs =>
    simp only [toolResultOK] at h
    cases hlk : lookupO kvs ("outputs".data) with
    | none => simp [toolTRStep, pyGet, hlk, pyIter, toolOutLoop, exOk]
    | some w =>
      rw [hlk] at h
      cases w with
      | arr outs =>
        have hloop := toolOutLoop_ok outs.toList []
          (fun x hx => (List.all_eq_true.1 h) x hx)
        cases he : toolOutLoop [] outs.toList with
        | error e => rw [he] at hloop; simp [exOk] at hloop
        | ok ob => simp [toolTRStep, pyGet, hlk, pyIter, he, exOk]
      | null => exact absurd h (by simp)
      | bool b => exact absurd h (by simp)
      | num n => exact absurd h (by simp)
      | str s => exact absurd h (by simp)
      | obj o => exact absurd h (by simp)
  | null => exact absurd h (by simp [toolResultOK])
  | bool b => exact absurd h (by simp [toolResultOK])
  | num n => exact absurd h (by simp [toolResultOK])
  | str s => exact absurd h (by simp [toolResultOK])
  | arr a => exact absurd h (by simp [toolResultOK])

lemma toolTRLoop_ok : ∀ (l : List JVal) (acc : List RNode),
    (∀ v ∈ l, toolResultOK v = true) → exOk (toolTRLoop acc l) = true := by
  intro l
  induction l with
  | nil => intro acc _; rfl
  | cons tr rest ih =>
    intro acc h
    have hs := toolTRStep_ok acc tr (h tr (List.mem_cons_self tr rest))
    cases he : toolTRStep acc tr with
    | error e => rw [he] at hs; simp [exOk] at hs
    | ok acc2 =>
      simp only [toolTRLoop, he]
      exact ih acc2 (fun x hx => h x (List.mem_cons_of_mem _ hx))

lemma renderToolTurn_ok (kvs : JObj) (index : Nat)
    (h : toolResultsFieldOK kvs = true) :
    exOk (renderToolTurn (.obj kvs) index) = true := by
  simp only [toolResultsFieldOK] at h
  cases hlk : lookupO kvs ("tool_results".data) with
  | none => simp [renderToolTurn, pyGet, hlk, pyIter, toolTRLoop, exOk]
  | some w =>
    rw [hlk] at h
    cases w with
    | arr trs =>
      have hloop := toolTRLoop_ok trs.toList []
        (fun x hx => (List.all_eq_true.1 h) x hx)
      cases he : toolTRLoop [] trs.toList with
      | error e => rw [he] at hloop; simp [exOk] at hloop
      | ok b => simp [renderToolTurn, pyGet, hlk, pyIter, he, exOk]
    | null => exact absurd h (by simp)
    | bool b => exact absurd h (by simp)
    | num n => exact absurd h (by simp)
    | str s => exact absurd h (by simp)
    | obj o => exact absurd h (by simp)

lemma renderTurn_ok (turn : JVal) (index : Nat) (h : SchemaTurn turn = true) :
    ∃ node, renderTurn turn index = .ok node := by
  cases turn with
  | obj kvs =>
    simp only [SchemaTurn, Bool.and_eq_true] at h
    obtain ⟨⟨⟨h1, h2⟩, h3⟩, h4⟩ := h
    have hS := renderSystemTurn_ok kvs index h1
    have hU := renderUserTurn_ok kvs index h1
    have hC := renderChatbotTurn_ok kvs index h1 h2 h3
    have hT := renderToolTurn_ok kvs index h4
    unfold renderTurn
    simp only [pyGet]
    split
    · cases he : renderSystemTurn (.obj kvs) index with
      | error e => rw [he] at hS; simp [exOk] at hS
      | ok n => exact ⟨n, rfl⟩
    · split
      · cases he : renderUserTurn (.obj kvs) index with
        | error e => rw [he] at hU; simp [exOk] at hU
        | ok n => exact ⟨n, rfl⟩
      · split
        · cases he : renderChatbotTurn (.obj kvs) index with
          | error e => rw [he] at hC; simp [exOk] at hC
          | ok n => exact ⟨n, rfl⟩
        · split
          · cases he : renderToolTurn (.obj kvs) index with
            | error e => rw [he] at hT; simp [exOk] at hT
            | ok n => exact ⟨n, rfl⟩
          · exact ⟨_, rfl⟩
  | null => exact absurd h (by simp [SchemaTurn])
  | bool b => exact absurd h (by simp [SchemaTurn])
  | num n => exact absurd h (by simp [SchemaTurn])
  | str s => exact absurd h (by simp [SchemaTurn])
  | arr a => exact absurd h (by simp [SchemaTurn])

/-! ### The partition property of the scanner

Statement helpers: the pieces of the input strictly between consecutive
marker matches (`interSegs`), and the cursor position after the last
match (`endOf`).  `segsFrom` (hence `segments`) is the inter-marker
pieces followed by the tail piece. -/

def interSegs (text : List Char) : Nat → List (Nat × List Char) → List (List Char)
  | _, [] => []
  | c, (p, n) :: ts => sliceL text c p :: interSegs text (p + n.length + 4) ts

def endOf : Nat → List (Nat × List Char) → Nat
  | c, [] => c
  | _, (p, n) :: ts => endOf (p + n.length + 4) ts

lemma segsFrom_decomp (text : List Char) : ∀ (ms : List (Nat × List Char)) (c : Nat),
    segsFrom text c ms = interSegs text c ms ++ [sliceL text (endOf c ms) text.length] := by
  intro ms
  induction ms with
  | nil => intro c; rfl
  | cons m ts ih =>
    intro c
    cases m with
    | mk p n => simp [segsFrom, interSegs, endOf, ih]

lemma append_if (A : List TokSection) (c : Prop) [Decidable c] (x : TokSection) :
    (if c then A ++ [x] else A) = A ++ (if c then [x] else []) := by
  split <;> simp

/-- On a *recognized* token, every dispatch branch advances the cursor
to the token's end and appends at most the one pre-token section. -/
lemma stepTok_rec (text : List Char) (st : PState) (p : Nat) (n : List Char)
    (hk : (tokenKindOf n).isSome = true) :
    (stepTok text st (p, n)).curStart = p + n.length + 4 ∧
    (stepTok text st (p, n)).sections =
      st.sections ++
        (if p > st.curStart ∧ pyStrip (sliceL text st.curStart p) ≠ [] then
          [⟨st.curType, '<' :: '|' :: (n ++ ['|', '>']), sliceL text st.curStart p⟩]
        else []) := by
  unfold stepTok
  cases hko : tokenKindOf n with
  | none => rw [hko] at hk; simp at hk
  | some ty =>
    simp only [hko]
    constructor
    · split
      · rfl
      · split
        · rfl
        · rfl
    · split
      · exact append_if _ _ _
      · split
        · exact append_if _ _ _
        · exact append_if _ _ _

/-- Loop invariant of `_parse_token_sections` when every scanner match
is a recognized token: the emitted contents are exactly the
non-whitespace inter-marker pieces, and the cursor ends at the last
token's end. -/
lemma stepTok_fold (text : List Char) : ∀ (ms : List (Nat × List Char)) (st : PState),
    OrderedFrom st.curStart ms →
    (∀ m ∈ ms, (tokenKindOf m.2).isSome = true) →
    ((ms.foldl (stepTok text) st).sections.map (fun s => s.content) =
      st.sections.map (fun s => s.content) ++
        (interSegs text st.curStart ms).filter (fun seg => pyStrip seg ≠ []) ∧
     (ms.foldl (stepTok text) st).curStart = endOf st.curStart ms) := by
  intro ms
  induction ms with
  | nil => intro st _ _; simp [interSegs, endOf]
  | cons m ts ih =>
    intro st hord hrec
    cases m with
    | mk p n =>
      obtain ⟨hle, hord2⟩ := hord
      obtain ⟨hc1, hc2⟩ := stepTok_rec text st p n (hrec (p, n) (List.mem_cons_self _ _))
      have hrec2 : ∀ m ∈ ts, (tokenKindOf m.2).isSome = true :=
        fun m hm => hrec m (List.mem_cons_of_mem _ hm)
      have hord2' : OrderedFrom (stepTok text st (p, n)).curStart ts := by
        rw [hc1]; exact hord2
      obtain ⟨ih1, ih2⟩ := ih (stepTok text st (p, n)) hord2' hrec2
      have hfil :
          ((if p > st.curStart ∧ pyStrip (sliceL text st.curStart p) ≠ [] then
            [(⟨st.curType, '<' :: '|' :: (n ++ ['|', '>']), sliceL text st.curStart p⟩ : TokSection)]
          else []).map (fun s => s.content)) =
          (if pyStrip (sliceL text st.curStart p) ≠ [] then [sliceL text st.curStart p] else []) := by
        by_cases hp : st.curStart < p
        · by_cases hst : pyStrip (sliceL text st.curStart p) = []
          · rw [if_neg (by simp [hst]), if_neg (by simp [hst])]
            rfl
          · rw [if_pos ⟨hp, hst⟩, if_pos hst]
            rfl
        · have hpe : sliceL text st.curStart p = [] := sliceL_nil text _ _ (by omega)
          rw [hpe]
          rw [if_neg (by simp [pyStrip]), if_neg (by simp [pyStrip])]
          rfl
      constructor
      · rw [List.foldl_cons, ih1, hc1, hc2]
        simp only [List.map_append, hfil]
        rw [List.append_assoc]
        congr 1
        show _ = List.filter _ (interSegs text st.curStart ((p, n) :: ts))
        rw [interSegs, List.filter_cons]
        by_cases hst : pyStrip (sliceL text st.curStart p) = [] <;> simp [hst]
      · rw [List.foldl_cons, ih2, hc1]
        rfl

lemma pyStrip_nil : pyStrip [] = [] := rfl

lemma sliceL_zero_len (text : List Char) : sliceL text 0 text.length = text := by
  unfold sliceL
  simp

/-- The partition equation of `decodeMarkup` on inputs whose scanner
matches are all recognized tokens: the concatenated section contents are
the concatenation of the non-whitespace inter-marker (and tail) pieces
of the input; when every piece is whitespace-only the whole input is
returned as the single fallback section. -/
lemma decodeMarkup_partition (text : List Char)
    (hrec : ∀ m ∈ findMarkers text, (tokenKindOf m.2).isSome = true) :
    joinContents (decodeMarkup text) =
      ((segments text).filter (fun seg => pyStrip seg ≠ [])).flatten ∨
    (((segments text).filter (fun seg => pyStrip seg ≠ [])).flatten = [] ∧
      joinContents (decodeMarkup text) = text) := by
  by_cases hms : findMarkers text = []
  · have hdm : decodeMarkup text = [⟨"plain".data, [], text⟩] := by
      simp only [decodeMarkup]
      rw [if_pos hms]
    have hseg : segments text = [sliceL text 0 text.length] := by
      unfold segments
      rw [hms]
      rfl
    rw [hseg, sliceL_zero_len]
    by_cases hst : pyStrip text = []
    · right
      constructor
      · simp [List.filter, hst]
      · rw [hdm]
        simp [joinContents]
    · left
      rw [hdm]
      simp [joinContents, List.filter, hst]
  · obtain ⟨hsec, hcur⟩ := stepTok_fold text (findMarkers text)
      ⟨"plain".data, 0, [], []⟩ (findMarkers_ordered text) hrec
    simp only [List.map_nil, List.nil_append] at hsec
    have hseg : segments text =
        interSegs text 0 (findMarkers text) ++
          [sliceL text (endOf 0 (findMarkers text)) text.length] := by
      unfold segments
      exact segsFrom_decomp text (findMarkers text) 0
    rw [hseg, List.filter_append]
    by_cases htail : pyStrip (sliceL text (endOf 0 (findMarkers text)) text.length) = []
    · have hcond : ¬(((findMarkers text).foldl (stepTok text)
          ⟨"plain".data, 0, [], []⟩).curStart < text.length ∧
          pyStrip (sliceL text ((findMarkers text).foldl (stepTok text)
            ⟨"plain".data, 0, [], []⟩).curStart text.length) ≠ []) := by
        rw [hcur]
        rintro ⟨-, hne⟩
        exact hne htail
      have hftail : List.filter (fun seg => pyStrip seg ≠ [])
          [sliceL text (endOf 0 (findMarkers text)) text.length] = [] := by
        simp [List.filter, htail]
      rw [hftail, List.append_nil]
      by_cases hnil : ((findMarkers text).foldl (stepTok text)
          ⟨"plain".data, 0, [], []⟩).sections = []
      · have hdm : decodeMarkup text = [⟨"plain".data, [], text⟩] := by
          simp only [decodeMarkup]
          rw [if_neg hms, if_neg hcond, if_pos hnil]
        right
        constructor
        · rw [hnil] at hsec
          rw [← hsec]
          rfl
        · rw [hdm]
          simp [joinContents]
      · have hdm : decodeMarkup text = ((findMarkers text).foldl (stepTok text)
            ⟨"plain".data, 0, [], []⟩).sections := by
          simp only [decodeMarkup]
          rw [if_neg hms, if_neg hcond, if_neg hnil]
        left
        rw [hdm]
        unfold joinContents
        rw [hsec]
    · have hlen : endOf 0 (findMarkers text) < text.length := by
        by_contra hge
        push_neg at hge
        rw [sliceL_nil text _ _ hge] at htail
        exact htail pyStrip_nil
      have hcond : (((findMarkers text).foldl (stepTok text)
          ⟨"plain".data, 0, [], []⟩).curStart < text.length ∧
          pyStrip (sliceL text ((findMarkers text).foldl (stepTok text)
            ⟨"plain".data, 0, [], []⟩).curStart text.length) ≠ []) := by
        rw [hcur]
        exact ⟨hlen, htail⟩
      have hdm : decodeMarkup text = ((findMarkers text).foldl (stepTok text)
          ⟨"plain".data, 0, [], []⟩).sections ++
          [⟨((findMarkers text).foldl (stepTok text)
            ⟨"plain".data, 0, [], []⟩).curType, [],
            sliceL text ((findMarkers text).foldl (stepTok text)
              ⟨"plain".data, 0, [], []⟩).curStart text.length⟩] := by
        simp only [decodeMarkup]
        rw [if_neg hms, if_pos hcond, if_neg (by simp)]
      left
      rw [hdm]
      unfold joinContents
      rw [List.map_append, hsec, hcur]
      have hftail : List.filter (fun seg => pyStrip seg ≠ [])
          [sliceL text (endOf 0 (findMarkers text)) text.length] =
          [sliceL text (endOf 0 (findMarkers text)) text.length] := by
        simp [List.filter, htail]
      rw [hftail]
      rfl

/-! ## The claims -/

/-- An example of a schema-conforming chatbot turn, used to witness C1. -/
def turnEx : JVal :=
  .obj (.ofList
    [("role".data, .str ("Chatbot".data)),
     ("rationale".data, .str ("think".data)),
     ("tool_calls".data, .arr (.ofList
       [.obj (.ofList
         [("name".data, .str ("f".data)),
          ("parameters".data, .obj (.ofList [("a".data, .num 1)]))])])),
     ("content".data, .str ("hi".data))])

/-- C1: the spec says `renderTurn` never raises on any turn record.  As
stated the claim is false (`c1_counterexample`: a tool turn whose
`tool_results` list holds a non-dict raises `AttributeError` at
`tr.get`).  The amended claim proved here: on every turn record
conforming to the data schema the renderer is written for
(`SchemaTurn`), `renderTurn` returns a value and never raises; the other
two entry points (`decodeMarkup`, both `expandNestedJson`s) are total on
all inputs, as their embeddings are total Lean functions. -/
theorem c1_renderTurn_total_on_schema (turn : JVal) (index : Nat)
    (h : SchemaTurn turn = true) :
    ∃ node, renderTurn turn index = Except.ok node :=
  renderTurn_ok turn index h

/-- Witness for C1 at a concrete chatbot turn exercising rationale, tool
calls and content. -/
theorem c1_witness :
    SchemaTurn turnEx = true ∧ ∃ node, renderTurn turnEx 0 = Except.ok node :=
  ⟨rfl, c1_renderTurn_total_on_schema turnEx 0 rfl⟩

/-- Counterexample to C1 as stated: `_render_tool_turn` calls
`tool_result.get(...)` on each element of `tool_results`, so a non-dict
element raises `AttributeError`. -/
theorem c1_counterexample :
    renderTurn (.obj (.ofList [("role".data, .str ("Tool".data)),
      ("tool_results".data, .arr (.ofList [.num 1]))])) 0 =
    .error .attributeError := rfl

/-- C2: the spec claims the section contents concatenate to the input
with marker text removed.  As stated this is false
(`c2_counterexample`: whitespace-only pieces are dropped, and unknown
tokens duplicate text — see C6).  The amended claim proved here: when
every scanner match is a recognized token, the concatenated contents of
`decodeMarkup text` equal the concatenation of the *non-whitespace*
inter-marker pieces of the input; except that when every piece is
whitespace-only, the fallback single section carries the whole input
(markers included). -/
theorem c2_partition (text : List Char)
    (hrec : ∀ m ∈ findMarkers text, (tokenKindOf m.2).isSome = true) :
    joinContents (decodeMarkup text) =
      ((segments text).filter (fun seg => pyStrip seg ≠ [])).flatten ∨
    (((segments text).filter (fun seg => pyStrip seg ≠ [])).flatten = [] ∧
      joinContents (decodeMarkup text) = text) :=
  decodeMarkup_partition text hrec

/-- Witness for C2. -/
theorem c2_witness :
    (∀ m ∈ findMarkers ("<|SYSTEM_TOKEN|>Hello".data), (tokenKindOf m.2).isSome = true) ∧
    (joinContents (decodeMarkup ("<|SYSTEM_TOKEN|>Hello".data)) =
        ((segments ("<|SYSTEM_TOKEN|>Hello".data)).filter
          (fun seg => pyStrip seg ≠ [])).flatten ∨
      (((segments ("<|SYSTEM_TOKEN|>Hello".data)).filter
          (fun seg => pyStrip seg ≠ [])).flatten = [] ∧
        joinContents (decodeMarkup ("<|SYSTEM_TOKEN|>Hello".data)) =
          "<|SYSTEM_TOKEN|>Hello".data)) :=
  ⟨by decide, c2_partition ("<|SYSTEM_TOKEN|>Hello".data) (by decide)⟩

/-- Counterexample to C2 as stated: the whitespace-only piece between
the two markers is dropped, so the contents concatenate to `"x"` while
the input with markers removed is `" x"`. -/
theorem c2_counterexample :
    joinContents (decodeMarkup ("<|SYSTEM_TOKEN|> <|USER_TOKEN|>x".data)) = "x".data ∧
    removeMarkers ("<|SYSTEM_TOKEN|> <|USER_TOKEN|>x".data) = " x".data ∧
    ("x".data : List Char) ≠ " x".data :=
  ⟨rfl, rfl, by decide⟩

/-- C3: the spec says a standalone role marker (System/User/Chatbot)
*replaces* the entire stack.  As stated this is false
(`c3_counterexample`).  The amended claim proved here: the code treats
role markers exactly like section-start markers — every recognized
non-end, non-turn token is *appended* to the stack (and becomes the
active kind, with the cursor advanced past the token). -/
theorem c3_role_marker_pushes (text : List Char) (st : PState) (p : Nat)
    (n ty : List Char)
    (hk : tokenKindOf n = some ty)
    (hend : isEndKind ty = false)
    (ht1 : ty ≠ "turn_start".data)
    (ht2 : ty ≠ "turn_end".data) :
    (stepTok text st (p, n)).stack = st.stack ++ [ty] ∧
    (stepTok text st (p, n)).curType = ty ∧
    (stepTok text st (p, n)).curStart = p + n.length + 4 := by
  unfold stepTok
  simp only [hk]
  rw [if_neg (by simp [hend])]
  rw [if_neg (by rintro (h | h) <;> [exact ht1 h; exact ht2 h])]
  exact ⟨rfl, rfl, rfl⟩

/-- Witness for C3: a System marker processed while `thinking` is on the
stack yields the two-element stack, not a replaced singleton. -/
theorem c3_witness :
    tokenKindOf ("SYSTEM_TOKEN".data) = some ("system".data) ∧
    (stepTok ("x".data) ⟨"thinking".data, 0, ["thinking".data], []⟩
      (0, "SYSTEM_TOKEN".data)).stack = ["thinking".data, "system".data] :=
  ⟨rfl, (c3_role_marker_pushes ("x".data) ⟨"thinking".data, 0, ["thinking".data], []⟩
    0 ("SYSTEM_TOKEN".data) ("system".data) rfl rfl (by decide) (by decide)).1⟩

/-- Counterexample to C3 as stated: after
`<|START_THINKING|>a<|SYSTEM_TOKEN|>b<|END_THINKING|>c` the End marker
pops back to `thinking` (the role marker was pushed on top of it), so
the final section kind is `thinking`; under the spec's replace semantics
the stack would be `[system]` and the End marker would leave `plain`. -/
theorem c3_counterexample :
    decodeMarkup ("<|START_THINKING|>a<|SYSTEM_TOKEN|>b<|END_THINKING|>c".data) =
      [⟨"thinking".data, "<|SYSTEM_TOKEN|>".data, "a".data⟩,
       ⟨"system".data, "<|END_THINKING|>".data, "b".data⟩,
       ⟨"thinking".data, [], "c".data⟩] ∧
    ("thinking".data : List Char) ≠ "plain".data :=
  ⟨rfl, by decide⟩

/-- C4: the spec merges the two implementations into one description, a
depth-bounded expansion producing a 2-key wrapper map.  As stated the
claim is false for both (`c4_counterexample`: the depth-bounded
conversation-viewer version *replaces* a parsed string with its
expansion and wraps nothing).  The amended claim proved here: the
conversation-viewer version replaces a JSON-shaped string that parses by
the expansion of its parse at `maxDepth - 1` and returns other strings
unchanged; the widgets version (which has *no* depth parameter) wraps a
parsed string in the 2-key map `[whose keys are] _nested_json_ and
_content_`, and returns a string unchanged when the shape check or the
parse fails. -/
theorem c4_string_expansion_shape :
    (∀ (s : List Char) (v : JVal) (d : Int), 0 < d → pyLooksLikeJson s = true →
      loads s = some v → expandCv (.str s) d = expandCv v (d - 1)) ∧
    (∀ (s : List Char) (d : Int), pyLooksLikeJson s = false ∨ loads s = none →
      expandCv (.str s) d = .str s) ∧
    (∀ (s : List Char) (v : JVal), widgetsCheck s = true → loads (pyStrip s) = some v →
      expandW (.str s) = .obj (.cons ("_nested_json_".data) (.bool true)
        (.cons ("_content_".data) (expandW v) .nil))) ∧
    (∀ s : List Char, loads (pyStrip s) = none → expandW (.str s) = .str s) ∧
    (∀ s : List Char, widgetsCheck s = false → expandW (.str s) = .str s) :=
  ⟨fun s v d hd hw hl => expandCv_str_parse s v d hd hw hl,
   fun s d h => expandCv_str_id s d h,
   fun s v hw hl => expandW_str_parse s v hw hl,
   fun s hl => expandW_str_fail s hl,
   fun s hw => expandW_str_nocheck s hw⟩

/-- Witness for C4. -/
theorem c4_witness :
    pyLooksLikeJson ("[1]".data) = true ∧
    expandCv (.str ("[1]".data)) 5 = expandCv (.arr (.cons (.num 1) .nil)) (5 - 1) :=
  ⟨rfl, c4_string_expansion_shape.1 ("[1]".data) (.arr (.cons (.num 1) .nil)) 5
    (by decide) rfl rfl⟩

/-- Counterexample to C4 as stated: the conversation-viewer expansion of
the JSON string `[1]` at depth 5 is the bare list `[1]`, not a 2-key
`isNestedJson`/`content` wrapper map. -/
theorem c4_counterexample :
    expandCv (.str ("[1]".data)) 5 = .arr (.cons (.num 1) .nil) ∧
    (JVal.arr (.cons (.num 1) .nil) ≠
      .obj (.cons ("isNestedJson".data) (.bool true)
        (.cons ("content".data) (.arr (.cons (.num 1) .nil)) .nil))) :=
  ⟨rfl, by decide⟩

/-- C5: the spec claims the depth-5 expansion is idempotent.  For the
depth-bounded conversation-viewer version this is false
(`c5_counterexample`: each level of structure and of string-parsing
consumes one depth unit, so a pass over sufficiently nested JSON leaves
a parseable string that only a second pass expands).  The amended claim
proved here: the *widgets* expansion — the one that produces the wrapper
maps the spec's rationale speaks of, and which has no depth bound — is
idempotent on every value. -/
theorem c5_widgets_expansion_idempotent (v : JVal) :
    expandW (expandW v) = expandW v :=
  expandW_idem v

/-- Counterexample to C5 as stated: `nestStr 3` is
`["[\"[\\\"[1]\\\"]\"]"]`-style nesting, three JSON-encodings deep.  One
depth-5 pass yields `[[["[1]"]]]`, whose inner string a second pass
expands to `[[[[1]]]]`. -/
theorem c5_counterexample :
    expandCv (.str (nestStr 3)) 5 =
      .arr (.cons (.arr (.cons (.arr (.cons (.str ("[1]".data)) .nil)) .nil)) .nil) ∧
    expandCv (.arr (.cons (.arr (.cons (.arr (.cons (.str ("[1]".data)) .nil)) .nil)) .nil)) 5 =
      .arr (.cons (.arr (.cons (.arr (.cons (.arr (.cons (.num 1) .nil)) .nil)) .nil)) .nil) ∧
    expandCv (expandCv (.str (nestStr 3)) 5) 5 ≠ expandCv (.str (nestStr 3)) 5 := by
  refine ⟨rfl, rfl, by decide⟩

/-- C6 (implicit): an unrecognized marker-shaped token leaves the cursor
(and stack and active kind) unchanged while still emitting the pending
content, so the text before it is emitted again — as a prefix of the
content emitted at the next recognized marker. -/
theorem c6_unknown_token_duplication (text : List Char) (st : PState)
    (p1 p2 : Nat) (n1 n2 ty : List Char)
    (h1 : tokenKindOf n1 = none)
    (h2 : tokenKindOf n2 = some ty)
    (ha : st.curStart < p1) (hb : p1 ≤ p2)
    (hc : pyStrip (sliceL text st.curStart p1) ≠ []) :
    stepTok text st (p1, n1) =
      ⟨st.curType, st.curStart, st.stack,
        st.sections ++ [⟨st.curType, '<' :: '|' :: (n1 ++ ['|', '>']),
          sliceL text st.curStart p1⟩]⟩ ∧
    (stepTok text (stepTok text st (p1, n1)) (p2, n2)).sections =
      st.sections ++
        [⟨st.curType, '<' :: '|' :: (n1 ++ ['|', '>']), sliceL text st.curStart p1⟩,
         ⟨st.curType, '<' :: '|' :: (n2 ++ ['|', '>']), sliceL text st.curStart p2⟩] ∧
    sliceL text st.curStart p2 =
      sliceL text st.curStart p1 ++ sliceL text p1 p2 := by
  have hsplit : sliceL text st.curStart p2 =
      sliceL text st.curStart p1 ++ sliceL text p1 p2 :=
    sliceL_split text st.curStart p1 p2 (by omega) hb
  have hc2 : pyStrip (sliceL text st.curStart p2) ≠ [] := by
    rw [hsplit]
    exact pyStrip_append_ne _ _ hc
  have hstep1 : stepTok text st (p1, n1) =
      ⟨st.curType, st.curStart, st.stack,
        st.sections ++ [⟨st.curType, '<' :: '|' :: (n1 ++ ['|', '>']),
          sliceL text st.curStart p1⟩]⟩ := by
    unfold stepTok
    simp only [h1]
    rw [if_pos ⟨ha, hc⟩]
  refine ⟨hstep1, ?_, hsplit⟩
  rw [hstep1]
  obtain ⟨-, hs2⟩ := stepTok_rec text
    ⟨st.curType, st.curStart, st.stack,
      st.sections ++ [⟨st.curType, '<' :: '|' :: (n1 ++ ['|', '>']),
        sliceL text st.curStart p1⟩]⟩ p2 n2 (by simp [h2])
  rw [hs2]
  rw [if_pos ⟨show st.curStart < p2 by omega, hc2⟩]
  simp

/-- Witness for C6: `ab` precedes the unknown token `<|FOO|>`; `ab` is
emitted at the unknown token and re-emitted (extended by `cd`) at the
following `<|SYSTEM_TOKEN|>`. -/
theorem c6_witness :
    tokenKindOf ("FOO".data) = none ∧
    (stepTok ("ab<|FOO|>cd<|SYSTEM_TOKEN|>".data)
        (stepTok ("ab<|FOO|>cd<|SYSTEM_TOKEN|>".data)
          ⟨"plain".data, 0, [], []⟩ (2, "FOO".data))
        (11, "SYSTEM_TOKEN".data)).sections =
      [] ++ [⟨"plain".data, '<' :: '|' :: ("FOO".data ++ ['|', '>']),
               sliceL ("ab<|FOO|>cd<|SYSTEM_TOKEN|>".data) 0 2⟩,
             ⟨"plain".data, '<' :: '|' :: ("SYSTEM_TOKEN".data ++ ['|', '>']),
               sliceL ("ab<|FOO|>cd<|SYSTEM_TOKEN|>".data) 0 11⟩] :=
  ⟨rfl, (c6_unknown_token_duplication ("ab<|FOO|>cd<|SYSTEM_TOKEN|>".data)
    ⟨"plain".data, 0, [], []⟩ 2 11 ("FOO".data) ("SYSTEM_TOKEN".data) ("system".data)
    rfl rfl (by decide) (by decide) (by decide)).2.1⟩

/-- C7: a string with no marker-shaped substring decodes to exactly one
plain section holding the whole string.  Confirmed: the hypothesis says
the marker pattern matches at no offset (offsets at or beyond the length
give the empty suffix, on which the pattern never matches). -/
theorem c7_no_marker_plain (text : List Char)
    (hm : ∀ i < text.length, matchTok (text.drop i) = none) :
    decodeMarkup text = [⟨"plain".data, [], text⟩] := by
  have hall : ∀ j, matchTok (text.drop j) = none := by
    intro j
    by_cases hj : j < text.length
    · exact hm j hj
    · rw [List.drop_eq_nil_of_le (by omega)]
      rfl
  have hfm : findMarkers text = [] := fmAux_nil text.length text 0 hall
  simp only [decodeMarkup]
  rw [if_pos hfm]

/-- Witness for C7 on a string with `<|` and `|>` but no full marker. -/
theorem c7_witness :
    (∀ i < ("a <| b |> c".data).length, matchTok (("a <| b |> c".data).drop i) = none) ∧
    decodeMarkup ("a <| b |> c".data) = [⟨"plain".data, [], "a <| b |> c".data⟩] :=
  ⟨by decide, c7_no_marker_plain ("a <| b |> c".data) (by decide)⟩

/-- C8: with a non-positive depth the conversation-viewer expansion
returns its input unchanged.  Confirmed (the widgets version cited
alongside has no depth parameter; the claim's equation is about the
depth-taking one). -/
theorem c8_depth_zero (v : JVal) (d : Int) (h : d ≤ 0) : expandCv v d = v :=
  expandCv_nonpos v d h

/-- Witness for C8: even an obviously-JSON string is left unexpanded at
depth 0. -/
theorem c8_witness :
    ((0 : Int) ≤ 0) ∧ expandCv (.str ("[1]".data)) 0 = .str ("[1]".data) :=
  ⟨by decide, c8_depth_zero (.str ("[1]".data)) 0 (by decide)⟩

/-- C9: the widgets expansion (the recursion with no depth bound)
terminates on every value: with a step budget of `szJ v` — a parsed
value is strictly smaller than the string it came from — the
fuel-indexed mirror of the recursion finishes, and its result is the
function's value.  Confirmed.  (The conversation-viewer version
terminates trivially: its depth argument strictly decreases.) -/
theorem c9_expansion_terminates (v : JVal) :
    expandWFuel (szJ v) v = some (expandW v) :=
  expandWFuel_suff (szJ v) v le_rfl

/-- C10: the spec says a json-tagged fence body that fails to parse is
passed through byte-identically.  As stated this is false
(`c10_counterexample`: the code renders `match.group(2).strip()`, so
surrounding whitespace — including the newline the fence grammar forces
before the closing backticks — is removed).  The amended claim proved
here: the code segments produced for a text are exactly, in order, one
per fence match: the *stripped* body re-serialized with 2-space
indentation when the fence is json-tagged and the stripped body parses,
the stripped body unmodified otherwise. -/
theorem c10_json_fence_segments (text : List Char) :
    codeSegsOf (renderTextWithCodeBlocks text) =
      (splitFences text).1.map codeSegSpec := by
  unfold renderTextWithCodeBlocks
  exact codeSegs_flatten (splitFences text).1 _ (by split <;> rfl)

/-- Counterexample to C10 as stated: the body of the fence is
`not json\n` but the emitted code segment is the stripped `not json`,
not byte-identical. -/
theorem c10_counterexample :
    renderTextWithCodeBlocks ("```json\nnot json\n```".data) =
      [.codeN ("not json".data) ("json".data), .textN [] []] ∧
    (splitFences ("```json\nnot json\n```".data)).1 =
      [([], some ("json".data), "not json\n".data)] ∧
    ("not json".data : List Char) ≠ "not json\n".data :=
  ⟨rfl, rfl, by decide⟩
